import Mathlib

/-!
Verification of the deco-cx/validate-blocks structural validator.

This file gives a shallow embedding of the repository's core algorithms:

* the recursive structural validator `validateValue` (src/src/validator.ts,
  first module) together with its helpers `validatePrimitive`,
  `validateArray`, `validateObject`, `validateUnion`, `validateSpecialType`;
* the single-target occurrence scanner `findInObject`
  (src/src/type-parser.ts);
* the type-expression resolver of the extractor (`resolveTypeNode`,
  `buildValidationSchema`, `resolveOmitType`, `resolvePickType`,
  `resolvePartialType`, `extractLiteralKeys` in the ts-parser module);
* the saved-block document validator `validateJsonFile` together with
  `findSectionsInJson`, `isSavedBlock` and friends (src/src/validator.ts,
  second module, and src/src/import-analyzer.ts).

JavaScript objects are modelled as association lists of string keys (JSON
objects have unique keys), `undefined` as `Option.none`, and JS `typeof`
by the function `jsTypeof`.  File-system and AST collaborators of
`validateJsonFile` are abstracted as explicit environment fields, so the
theorems about it hold for every behaviour of those collaborators.
-/

namespace VB

/-- JSON values, the input domain of the validator (model of arbitrary
parsed JSON: null, booleans, numbers, strings, arrays, objects). -/
inductive Json where
  | null : Json
  | bool (b : Bool) : Json
  | num (n : Int) : Json
  | str (s : String) : Json
  | arr (items : List Json) : Json
  | obj (fields : List (String × Json)) : Json
deriving Repr

/-- Issue severity, the `severity` field of the validator's
`ValidationError` record. -/
inductive Severity where
  | error : Severity
  | warning : Severity
deriving Repr, DecidableEq

/-- The validator's issue record (`ValidationError` in
src/src/validator.ts, first module). -/
structure ValidationError where
  path : String
  message : String
  severity : Severity
deriving Repr, DecidableEq

/-- JavaScript `typeof` on a JSON value (`typeof null` is `"object"`,
arrays are `"object"` too). -/
def jsTypeof : Json → String
  | Json.null => "object"
  | Json.bool _ => "boolean"
  | Json.num _ => "number"
  | Json.str _ => "string"
  | Json.arr _ => "object"
  | Json.obj _ => "object"

/-- JavaScript truthiness of a JSON value. -/
def jsTruthy : Json → Bool
  | Json.null => false
  | Json.bool b => b
  | Json.num n => n != 0
  | Json.str s => s != ""
  | Json.arr _ => true
  | Json.obj _ => true

/-- Truthiness of a JS property access result (`undefined` is falsy). -/
def truthyOpt : Option Json → Bool
  | none => false
  | some j => jsTruthy j

/-- Whether the value is a JS string. -/
def Json.isString : Json → Bool
  | Json.str _ => true
  | _ => false

/-- Whether the value is a JS number. -/
def Json.isNumber : Json → Bool
  | Json.num _ => true
  | _ => false

/-- Whether the value is a JS boolean. -/
def Json.isBoolean : Json → Bool
  | Json.bool _ => true
  | _ => false

/-- Whether the value is JS `null`. -/
def Json.isNull : Json → Bool
  | Json.null => true
  | _ => false

/-- `Array.isArray`. -/
def Json.isArray : Json → Bool
  | Json.arr _ => true
  | _ => false

/-- Whether the value passes `typeof v === "object" && v !== null &&
!Array.isArray(v)`, i.e. is a plain structural object. -/
def Json.isStructuralObject : Json → Bool
  | Json.obj _ => true
  | _ => false

/-- Property access `fields[k]` on a modelled JS object: the value at the
key, or `none` for `undefined`. -/
def getField (fields : List (String × Json)) (k : String) : Option Json :=
  (fields.find? (fun p => p.1 == k)).map (fun p => p.2)

/-- JavaScript `k in obj` on a modelled JS object. -/
def hasKey (fields : List (String × Json)) (k : String) : Bool :=
  (fields.find? (fun p => p.1 == k)).isSome

/-- JS `s.startsWith(p)`, computed on the character lists (the byte-level
core-library version does not reduce in the kernel). -/
def jsStartsWith (s p : String) : Bool :=
  p.data.isPrefixOf s.data

/-- JS `s.endsWith(p)`, computed on the character lists. -/
def jsEndsWith (s p : String) : Bool :=
  p.data.isSuffixOf s.data

/-- Whether `sub` occurs as a contiguous run inside the list. -/
def containsSub (sub : List Char) : List Char → Bool
  | [] => sub.isEmpty
  | x :: xs => sub.isPrefixOf (x :: xs) || containsSub sub xs

/-- JS `s.includes(sub)`, computed on the character lists. -/
def jsIncludes (s sub : String) : Bool :=
  containsSub sub.data s.data

/-- Splitter for JS `s.split(c)` with a one-character separator, on
character lists. -/
def splitCharAux (c : Char) : List Char → List (List Char)
  | [] => [[]]
  | x :: xs =>
      let rest := splitCharAux c xs
      if x == c then [] :: rest
      else
        match rest with
        | hd :: tl => (x :: hd) :: tl
        | [] => [[x]]

/-- JS `s.split(c)` for a one-character separator. -/
def jsSplitChar (s : String) (c : Char) : List String :=
  (splitCharAux c s.data).map String.mk

/-- JS `s.slice(n)` / drop of the first `n` characters. -/
def jsDrop (s : String) (n : Nat) : String :=
  String.mk (s.data.drop n)

/-- `path ? path + "." + name : name`, the property-path template used by
`validateObject`. -/
def joinPath (path name : String) : String :=
  if path = "" then name else path ++ "." ++ name

/-- The normalized type schema (`TypeSchema` in the ts-parser module).
The source is a record with a `kind` discriminant and per-kind optional
fields; here each kind is a constructor carrying exactly the fields the
validator reads for it. -/
inductive TypeSchema where
  | primitive (type : String) (optional : Bool) : TypeSchema
  | array (elementType : Option TypeSchema) (optional : Bool) : TypeSchema
  | object (properties : Option (List (String × TypeSchema))) (optional : Bool) : TypeSchema
  | union (unionTypes : Option (List TypeSchema)) (optional : Bool) : TypeSchema
  | special (specialType : String) (optional : Bool) : TypeSchema
  | any (optional : Bool) : TypeSchema
deriving Repr

/-- `schema.optional` (defaults to false in the source when absent). -/
def TypeSchema.optional : TypeSchema → Bool
  | TypeSchema.primitive _ o => o
  | TypeSchema.array _ o => o
  | TypeSchema.object _ o => o
  | TypeSchema.union _ o => o
  | TypeSchema.special _ o => o
  | TypeSchema.any o => o

/-- Schema lookup `properties[k]` used by the extra-key scan and the
utility-type transforms. -/
def getProp (props : List (String × TypeSchema)) (k : String) : Option TypeSchema :=
  (props.find? (fun p => p.1 == k)).map (fun p => p.2)

/-- `k in schema.properties` membership test of the extra-key scan. -/
def hasProp (props : List (String × TypeSchema)) (k : String) : Bool :=
  (props.find? (fun p => p.1 == k)).isSome

/-- `validatePrimitive` (src/src/validator.ts lines 68-103): the runtime
kind of the value must match the declared primitive; the reported actual
kind is `"null"` for null, otherwise `typeof`. -/
def validatePrimitive (v : Json) (type : String) (path : String) : List ValidationError :=
  let actualType := match v with
    | Json.null => "null"
    | other => jsTypeof other
  if type == "string" && !v.isString then
    [⟨path, "esperado string, recebido " ++ actualType, Severity.error⟩]
  else if type == "number" && !v.isNumber then
    [⟨path, "esperado number, recebido " ++ actualType, Severity.error⟩]
  else if type == "boolean" && !v.isBoolean then
    [⟨path, "esperado boolean, recebido " ++ actualType, Severity.error⟩]
  else if type == "null" && !v.isNull then
    [⟨path, "esperado null, recebido " ++ actualType, Severity.error⟩]
  else []

/-- `validateSpecialType` (src/src/validator.ts lines 258-350): bespoke
rules per domain tag; unknown tags always pass.  Arrays pass the
`typeof value === "object" && value !== null` tests of the Product-family
branches, and property access on them yields `undefined`. -/
def validateSpecialType (v : Json) (specialType : String) (path : String) : List ValidationError :=
  if specialType = "ImageWidget" ∨ specialType = "RichText" ∨ specialType = "Color" ∨
      specialType = "DateWidget" ∨ specialType = "DateTimeWidget" then
    if v.isString then []
    else
      [⟨path, "esperado " ++ specialType ++ " (string), recebido " ++ jsTypeof v,
        Severity.error⟩]
  else if specialType = "Product" then
    match v with
    | Json.obj fields =>
        if !truthyOpt (getField fields "productID") && !truthyOpt (getField fields "sku") then
          [⟨path ++ ".productID", "Product deve ter productID ou sku", Severity.error⟩]
        else []
    | Json.arr _ =>
        [⟨path ++ ".productID", "Product deve ter productID ou sku", Severity.error⟩]
    | other =>
        [⟨path, "esperado Product (object), recebido " ++ jsTypeof other, Severity.error⟩]
  else if specialType = "ProductListingPage" then
    match v with
    | Json.obj fields =>
        if !(getField fields "products").elim false Json.isArray then
          [⟨path ++ ".products", "ProductListingPage deve ter array products", Severity.error⟩]
        else []
    | Json.arr _ =>
        [⟨path ++ ".products", "ProductListingPage deve ter array products", Severity.error⟩]
    | other =>
        [⟨path, "esperado ProductListingPage (object), recebido " ++ jsTypeof other,
          Severity.error⟩]
  else if specialType = "ProductDetailsPage" then
    match v with
    | Json.obj fields =>
        if !truthyOpt (getField fields "product") then
          [⟨path ++ ".product", "ProductDetailsPage deve ter product", Severity.error⟩]
        else []
    | Json.arr _ =>
        [⟨path ++ ".product", "ProductDetailsPage deve ter product", Severity.error⟩]
    | other =>
        [⟨path, "esperado ProductDetailsPage (object), recebido " ++ jsTypeof other,
          Severity.error⟩]
  else []

/-- The extra-key scan of `validateObject` (src/src/validator.ts lines
191-208): one warning per own key that is not declared and does not start
with the reserved `"__"` prefix. -/
def extraPropWarnings (keys : List String) (props : List (String × TypeSchema))
    (path : String) : List ValidationError :=
  match keys with
  | [] => []
  | key :: rest =>
      if jsStartsWith key "__" then extraPropWarnings rest props path
      else if hasProp props key then extraPropWarnings rest props path
      else
        ⟨joinPath path key, "propriedade não definida na tipagem (pode ser removida)",
          Severity.warning⟩ :: extraPropWarnings rest props path

/-- Rendering of a union member in the union-mismatch message
(src/src/validator.ts lines 237-243): a primitive's type name, a special
type's tag, otherwise the kind name. -/
def unionMemberName : TypeSchema → String
  | TypeSchema.primitive type _ => type
  | TypeSchema.special specialType _ => specialType
  | TypeSchema.array _ _ => "array"
  | TypeSchema.object _ _ => "object"
  | TypeSchema.union _ _ => "union"
  | TypeSchema.any _ => "any"

mutual

/-- `validateValue` (src/src/validator.ts lines 12-63).  `value = none`
models an absent (`undefined`) value. -/
def validateValue (value : Option Json) (schema : TypeSchema) (path : String)
    (ignoreUnusedProps : Bool) : List ValidationError :=
  match value with
  | none =>
      if schema.optional then []
      else [⟨path, "propriedade obrigatória ausente", Severity.error⟩]
  | some v =>
      match schema with
      | TypeSchema.any _ => []
      | TypeSchema.primitive type _ => validatePrimitive v type path
      | TypeSchema.array elementType _ => validateArray v elementType path ignoreUnusedProps
      | TypeSchema.object properties _ => validateObject v properties path ignoreUnusedProps
      | TypeSchema.union unionTypes _ => validateUnion v unionTypes path ignoreUnusedProps
      | TypeSchema.special specialType _ => validateSpecialType v specialType path
termination_by (sizeOf schema, 0)

/-- `validateArray` (src/src/validator.ts lines 108-151). -/
def validateArray (v : Json) (elementType : Option TypeSchema) (path : String)
    (ignoreUnusedProps : Bool) : List ValidationError :=
  match v with
  | Json.obj fields =>
      if hasKey fields "__resolveType" then []
      else [⟨path, "esperado array, recebido " ++ jsTypeof (Json.obj fields), Severity.error⟩]
  | Json.arr items =>
      match elementType with
      | some et => validateItems items et path ignoreUnusedProps 0
      | none => []
  | other => [⟨path, "esperado array, recebido " ++ jsTypeof other, Severity.error⟩]
termination_by (sizeOf elementType, 1)

/-- The `value.forEach` element loop of `validateArray`. -/
def validateItems (items : List Json) (et : TypeSchema) (path : String)
    (ignoreUnusedProps : Bool) (index : Nat) : List ValidationError :=
  match items with
  | [] => []
  | item :: rest =>
      validateValue (some item) et (path ++ "[" ++ toString index ++ "]") ignoreUnusedProps
        ++ validateItems rest et path ignoreUnusedProps (index + 1)
termination_by (sizeOf et, 2 + sizeOf items)

/-- `validateObject` (src/src/validator.ts lines 156-212). -/
def validateObject (v : Json) (properties : Option (List (String × TypeSchema)))
    (path : String) (ignoreUnusedProps : Bool) : List ValidationError :=
  match v with
  | Json.obj fields =>
      match properties with
      | none => []
      | some props =>
          validateProperties props fields path ignoreUnusedProps
            ++ (if ignoreUnusedProps then []
                else extraPropWarnings (fields.map Prod.fst) props path)
  | Json.arr _ => [⟨path, "esperado object, recebido array", Severity.error⟩]
  | other => [⟨path, "esperado object, recebido " ++ jsTypeof other, Severity.error⟩]
termination_by (sizeOf properties, 1)

/-- The declared-property loop of `validateObject` (lines 177-188). -/
def validateProperties (props : List (String × TypeSchema)) (fields : List (String × Json))
    (path : String) (ignoreUnusedProps : Bool) : List ValidationError :=
  match props with
  | [] => []
  | (propName, propSchema) :: rest =>
      validateValue (getField fields propName) propSchema (joinPath path propName)
          ignoreUnusedProps
        ++ validateProperties rest fields path ignoreUnusedProps
termination_by (sizeOf props, 1)

/-- `validateUnion` (src/src/validator.ts lines 217-253). -/
def validateUnion (v : Json) (unionTypes : Option (List TypeSchema)) (path : String)
    (ignoreUnusedProps : Bool) : List ValidationError :=
  match unionTypes with
  | none => []
  | some uts =>
      if uts.isEmpty then []
      else validateUnionList uts uts v path ignoreUnusedProps
termination_by (sizeOf unionTypes, 1)

/-- The member loop of `validateUnion`: first member that validates with
zero issues wins; when all fail, one error listing all members. -/
def validateUnionList (uts all : List TypeSchema) (v : Json) (path : String)
    (ignoreUnusedProps : Bool) : List ValidationError :=
  match uts with
  | [] =>
      [⟨path,
        "valor não corresponde a nenhum tipo da união ("
          ++ String.intercalate " | " (all.map unionMemberName) ++ ")",
        Severity.error⟩]
  | ut :: rest =>
      if (validateValue (some v) ut path ignoreUnusedProps).isEmpty then []
      else validateUnionList rest all v path ignoreUnusedProps
termination_by (sizeOf uts, 1)

end


/-!
## Fuel-indexed mirror of the structural validator

`validateValueF` is the same recursion as `validateValue`, except that it
spends one unit of fuel on every entry into `validateValue` and answers
`none` when the fuel runs out.  A `some` answer therefore certifies that
the recursion of the source program completes (the totality claim): it
never needs more than `sizeOf schema` nested calls for any JSON value.
-/

mutual

/-- Fuel-indexed `validateValue`; `none` models a non-terminating or
crashing run, which the totality theorem rules out. -/
def validateValueF (fuel : Nat) (value : Option Json) (schema : TypeSchema) (path : String)
    (ignoreUnusedProps : Bool) : Option (List ValidationError) :=
  match fuel with
  | 0 => none
  | fuel + 1 =>
      match value with
      | none =>
          some (if schema.optional then []
            else [⟨path, "propriedade obrigatória ausente", Severity.error⟩])
      | some v =>
          match schema with
          | TypeSchema.any _ => some []
          | TypeSchema.primitive type _ => some (validatePrimitive v type path)
          | TypeSchema.array elementType _ => validateArrayF fuel v elementType path ignoreUnusedProps
          | TypeSchema.object properties _ => validateObjectF fuel v properties path ignoreUnusedProps
          | TypeSchema.union unionTypes _ => validateUnionF fuel v unionTypes path ignoreUnusedProps
          | TypeSchema.special specialType _ => some (validateSpecialType v specialType path)
termination_by (fuel, 0, 0)

/-- Fuel-indexed `validateArray`. -/
def validateArrayF (fuel : Nat) (v : Json) (elementType : Option TypeSchema) (path : String)
    (ignoreUnusedProps : Bool) : Option (List ValidationError) :=
  match v with
  | Json.obj fields =>
      if hasKey fields "__resolveType" then some []
      else some [⟨path, "esperado array, recebido " ++ jsTypeof (Json.obj fields), Severity.error⟩]
  | Json.arr items =>
      match elementType with
      | some et => validateItemsF fuel items et path ignoreUnusedProps 0
      | none => some []
  | other => some [⟨path, "esperado array, recebido " ++ jsTypeof other, Severity.error⟩]
termination_by (fuel, 2, 0)

/-- Fuel-indexed element loop of `validateArray`. -/
def validateItemsF (fuel : Nat) (items : List Json) (et : TypeSchema) (path : String)
    (ignoreUnusedProps : Bool) (index : Nat) : Option (List ValidationError) :=
  match items with
  | [] => some []
  | item :: rest =>
      match validateValueF fuel (some item) et (path ++ "[" ++ toString index ++ "]")
          ignoreUnusedProps with
      | none => none
      | some itemErrors =>
          match validateItemsF fuel rest et path ignoreUnusedProps (index + 1) with
          | none => none
          | some restErrors => some (itemErrors ++ restErrors)
termination_by (fuel, 1, sizeOf items)

/-- Fuel-indexed `validateObject`. -/
def validateObjectF (fuel : Nat) (v : Json) (properties : Option (List (String × TypeSchema)))
    (path : String) (ignoreUnusedProps : Bool) : Option (List ValidationError) :=
  match v with
  | Json.obj fields =>
      match properties with
      | none => some []
      | some props =>
          match validatePropertiesF fuel props fields path ignoreUnusedProps with
          | none => none
          | some propErrors =>
              some (propErrors
                ++ (if ignoreUnusedProps then []
                    else extraPropWarnings (fields.map Prod.fst) props path))
  | Json.arr _ => some [⟨path, "esperado object, recebido array", Severity.error⟩]
  | other => some [⟨path, "esperado object, recebido " ++ jsTypeof other, Severity.error⟩]
termination_by (fuel, 2, 1)

/-- Fuel-indexed declared-property loop of `validateObject`. -/
def validatePropertiesF (fuel : Nat) (props : List (String × TypeSchema))
    (fields : List (String × Json)) (path : String) (ignoreUnusedProps : Bool) :
    Option (List ValidationError) :=
  match props with
  | [] => some []
  | (propName, propSchema) :: rest =>
      match validateValueF fuel (getField fields propName) propSchema (joinPath path propName)
          ignoreUnusedProps with
      | none => none
      | some propErrors =>
          match validatePropertiesF fuel rest fields path ignoreUnusedProps with
          | none => none
          | some restErrors => some (propErrors ++ restErrors)
termination_by (fuel, 1, sizeOf props)

/-- Fuel-indexed `validateUnion`. -/
def validateUnionF (fuel : Nat) (v : Json) (unionTypes : Option (List TypeSchema))
    (path : String) (ignoreUnusedProps : Bool) : Option (List ValidationError) :=
  match unionTypes with
  | none => some []
  | some uts =>
      if uts.isEmpty then some []
      else validateUnionListF fuel uts uts v path ignoreUnusedProps
termination_by (fuel, 2, 2)

/-- Fuel-indexed member loop of `validateUnion`. -/
def validateUnionListF (fuel : Nat) (uts all : List TypeSchema) (v : Json) (path : String)
    (ignoreUnusedProps : Bool) : Option (List ValidationError) :=
  match uts with
  | [] =>
      some [⟨path,
        "valor não corresponde a nenhum tipo da união ("
          ++ String.intercalate " | " (all.map unionMemberName) ++ ")",
        Severity.error⟩]
  | ut :: rest =>
      match validateValueF fuel (some v) ut path ignoreUnusedProps with
      | none => none
      | some memberErrors =>
          if memberErrors.isEmpty then some []
          else validateUnionListF fuel rest all v path ignoreUnusedProps
termination_by (fuel, 1, sizeOf uts)

end

/-!
## The single-target occurrence scanner

`findInObject` (src/src/type-parser.ts lines 788-878) walks a parsed JSON
document looking for object nodes whose `__resolveType` equals the target
identifier, validating each one against the target's props schema.
-/

/-- The options record threaded through the occurrence scan
(`ValidationOptions` in src/src/type-parser.ts). -/
structure ValidationOptions where
  includeUnusedVars : Bool
  removeUnusedVars : Bool
  removeUnusedSections : Bool
  blocksDir : Option String
deriving Repr

/-- One recorded occurrence of the target identifier (the anonymous
record type returned by `findInObject`). -/
structure Occurrence where
  path : String
  valid : Bool
  errors : List ValidationError
  warnings : List ValidationError
deriving Repr

/-- The match record pushed by `findInObject` when a node's
`__resolveType` equals the target. -/
def occurrenceAt (currentPath : String) (fields : List (String × Json))
    (propsSchema : Option TypeSchema) (options : ValidationOptions) : Occurrence :=
  match propsSchema with
  | none =>
      ⟨(if currentPath = "" then "root" else currentPath), true, [],
        [⟨"Props", "interface Props não encontrada no arquivo", Severity.warning⟩]⟩
  | some ps =>
      let allIssues := validateValue (some (Json.obj fields)) ps "" (!options.includeUnusedVars)
      let errors := allIssues.filter (fun issue => !(issue.severity == Severity.warning))
      let warnings := allIssues.filter (fun issue => issue.severity == Severity.warning)
      ⟨(if currentPath = "" then "root" else currentPath), errors.isEmpty, errors, warnings⟩

mutual

/-- `findInObject` (src/src/type-parser.ts lines 788-878): records a match
when the node's discriminator equals the target, then keeps searching
recursively in every child (arrays by index, objects by key). -/
def findInObject (obj : Json) (targetResolveType : String) (currentPath : String)
    (propsSchema : Option TypeSchema) (options : ValidationOptions) : List Occurrence :=
  match obj with
  | Json.arr items => findInArrayItems items targetResolveType currentPath propsSchema options 0
  | Json.obj fields =>
      (if (match getField fields "__resolveType" with
            | some (Json.str rt) => rt == targetResolveType
            | _ => false) then
          [occurrenceAt currentPath fields propsSchema options]
        else [])
        ++ findInObjectEntries fields targetResolveType currentPath propsSchema options
  | _ => []
termination_by sizeOf obj

/-- The array-recursion loop of `findInObject`. -/
def findInArrayItems (items : List Json) (targetResolveType : String) (currentPath : String)
    (propsSchema : Option TypeSchema) (options : ValidationOptions) (index : Nat) :
    List Occurrence :=
  match items with
  | [] => []
  | item :: rest =>
      findInObject item targetResolveType
          (if currentPath = "" then "[" ++ toString index ++ "]"
            else currentPath ++ "[" ++ toString index ++ "]")
          propsSchema options
        ++ findInArrayItems rest targetResolveType currentPath propsSchema options (index + 1)
termination_by sizeOf items

/-- The object-entries recursion loop of `findInObject`. -/
def findInObjectEntries (fields : List (String × Json)) (targetResolveType : String)
    (currentPath : String) (propsSchema : Option TypeSchema) (options : ValidationOptions) :
    List Occurrence :=
  match fields with
  | [] => []
  | (key, value) :: rest =>
      findInObject value targetResolveType
          (if currentPath = "" then key else currentPath ++ "." ++ key)
          propsSchema options
        ++ findInObjectEntries rest targetResolveType currentPath propsSchema options
termination_by sizeOf fields

end

/-!
## Saved-block classification, the section finder, and `validateJsonFile`

These model src/src/import-analyzer.ts (`isSavedBlock`, `isAppSection`,
`shouldIgnore`, `findSectionsInJson`, `resolveTypeToPath`) and the second
module of src/src/validator.ts (`validateJsonFile`).  Disk and AST
collaborators (`getSectionContent`, `getExportDefaultFunctionProps`,
`validateProps`, `encodeURIComponent`, the `.deco/blocks` directory and
`JSON.parse` of its files) are supplied by an explicit environment `Env`,
so every theorem below holds for arbitrary collaborator behaviour.
-/

/-- `isSavedBlock` (src/src/import-analyzer.ts, block-manager module). -/
def isSavedBlock (resolveType : String) : Bool :=
  if resolveType == "resolved" then false
  else if jsStartsWith resolveType "site/" || jsStartsWith resolveType "website/" then false
  else if jsEndsWith resolveType ".tsx" || jsEndsWith resolveType ".ts" then false
  else if jsIncludes resolveType "." && !jsEndsWith resolveType "." then
    let parts := jsSplitChar resolveType '/'
    let lastPart := parts.getLastD ""
    if jsIncludes lastPart "." && (jsEndsWith lastPart ".tsx" || jsEndsWith lastPart ".ts") then
      false
    else true
  else true

/-- `isAppSection` (block-manager module). -/
def isAppSection (resolveType : String) : Bool :=
  jsStartsWith resolveType "site/"

/-- `shouldIgnore` (section-finder module): identifiers that are neither
saved blocks nor app sections are skipped (but their children are still
scanned). -/
def shouldIgnore (resolveType : String) : Bool :=
  if !isSavedBlock resolveType && !isAppSection resolveType then true else false

/-- `SectionInJson` (src/src/types.ts). -/
structure SectionInJson where
  resolveType : String
  props : List (String × Json)
  path : List String
deriving Repr

mutual

/-- `findSectionsInJson` (section-finder module): records every
non-ignored node carrying a string `__resolveType`, then recurses into
all children, skipping only the discriminator key itself. -/
def findSectionsInJson (obj : Json) (path : List String) : List SectionInJson :=
  match obj with
  | Json.arr items => sectionsInArray items path 0
  | Json.obj record =>
      match getField record "__resolveType" with
      | some (Json.str resolveType) =>
          if shouldIgnore resolveType then sectionsInFields record path
          else
            ⟨resolveType, record.filter (fun p => p.1 != "__resolveType"), path⟩
              :: sectionsInFields record path
      | _ => sectionsInFields record path
  | _ => []
termination_by sizeOf obj

/-- Array recursion of `findSectionsInJson`. -/
def sectionsInArray (items : List Json) (path : List String) (index : Nat) :
    List SectionInJson :=
  match items with
  | [] => []
  | item :: rest =>
      findSectionsInJson item (path ++ ["[" ++ toString index ++ "]"])
        ++ sectionsInArray rest path (index + 1)
termination_by sizeOf items

/-- Object-entries recursion of `findSectionsInJson` (skips the
discriminator key). -/
def sectionsInFields (record : List (String × Json)) (path : List String) :
    List SectionInJson :=
  match record with
  | [] => []
  | (key, value) :: rest =>
      (if key == "__resolveType" then [] else findSectionsInJson value (path ++ [key]))
        ++ sectionsInFields rest path
termination_by sizeOf record

end

/-- `Property` (src/src/types.ts), the expected-props record produced by
the AST collaborator. -/
structure Property where
  name : String
  type : String
  optional : Bool
deriving Repr, DecidableEq

/-- The per-message record returned by the `validateProps` collaborator
(message plus optional source line). -/
structure PropIssue where
  message : String
  line : Option Nat
deriving Repr, DecidableEq

/-- `ValidationError` of src/src/types.ts (block-level error record; named
apart from the structural validator record of the same source name). -/
structure BlockError where
  file : String
  sectionPath : String
  resolveType : String
  errors : List String
  errorLine : Option Nat
deriving Repr, DecidableEq

/-- An entry of `unresolvedResolveTypes`. -/
structure UnresolvedEntry where
  file : String
  sectionPath : String
  resolveType : String
deriving Repr, DecidableEq

/-- `ValidationResult` (src/src/types.ts); `usedSavedBlocks` is a JS `Set`
modelled as an insertion-ordered duplicate-free list. -/
structure ValidationResult where
  errors : List BlockError
  unresolvedResolveTypes : List UnresolvedEntry
  usedSavedBlocks : List String
deriving Repr, DecidableEq

/-- `Set.add` on the insertion-ordered list model of a JS `Set`. -/
def addToSet (l : List String) (x : String) : List String :=
  if l.contains x then l else l ++ [x]

/-- Environment of collaborators of `validateJsonFile`: the parsed
contents of the `.deco/blocks` directory keyed by block name, the JS
`encodeURIComponent` builtin, and the file/AST oracles used by the
non-saved-block branch. -/
structure Env where
  blocks : List (String × Json)
  encodeURIComponent : String → String
  getSectionContent : String → Option String
  getExportDefaultFunctionProps : String → Option String → Option (List Property)
  validateProps : List (String × Json) → List Property → String → Option String → List PropIssue

/-- `blockNameToFileName` (block-manager module). -/
def blockNameToFileName (env : Env) (blockName : String) : String :=
  env.encodeURIComponent blockName ++ ".json"

/-- `getSavedBlockContent` (block-manager module): `none` when the block
file is missing; the stored value is its parsed JSON content. -/
def getSavedBlockContent (env : Env) (resolveType : String) : Option Json :=
  if !isSavedBlock resolveType then none
  else (env.blocks.find? (fun p => p.1 == resolveType)).map (fun p => p.2)

/-- `resolveTypeToPath` (block-manager module). -/
def resolveTypeToPath (env : Env) (resolveType : String) : List String :=
  if isSavedBlock resolveType then
    [".deco/blocks/" ++ blockNameToFileName env resolveType]
  else if !jsStartsWith resolveType "site/" then []
  else
    let path := "./sections/" ++ jsDrop resolveType 5
    let paths := [path, "./" ++ jsDrop resolveType 5]
    paths.flatMap (fun p =>
      if !jsEndsWith p ".tsx" && !jsEndsWith p ".ts" then [p ++ ".tsx", p ++ ".ts"] else [p])

mutual

/-- Fuel-indexed `validateJsonFile` (src/src/validator.ts lines 674-829).
The input document is already parsed (`JSON.parse` is a collaborator);
`processedBlocks` is the in-progress saved-block set of the current
descent, copied before each recursive call.  `none` models a run that
would not terminate, which the termination theorem rules out. -/
def validateJsonFileF (env : Env) (fuel : Nat) (filePath : String) (json : Json)
    (processedBlocks : List String) : Option ValidationResult :=
  match fuel with
  | 0 => none
  | fuel + 1 =>
      processSectionsF env fuel filePath (findSectionsInJson json []) processedBlocks
        ⟨[], [], []⟩
termination_by (fuel, 0)

/-- The `for (const section of sections)` loop of `validateJsonFile`,
threading the `errors` / `unresolvedResolveTypes` / `usedSavedBlocks`
accumulators. -/
def processSectionsF (env : Env) (fuel : Nat) (filePath : String)
    (sections : List SectionInJson) (processedBlocks : List String)
    (acc : ValidationResult) : Option ValidationResult :=
  match sections with
  | [] => some acc
  | sect :: rest =>
      let rt := sect.resolveType
      let spath := String.intercalate "." sect.path
      if isSavedBlock rt then
        let acc := { acc with usedSavedBlocks := addToSet acc.usedSavedBlocks rt }
        if processedBlocks.contains rt then
          processSectionsF env fuel filePath rest processedBlocks
            { acc with errors := acc.errors
                ++ [⟨filePath, spath, rt, ["Circular reference detected: " ++ rt], none⟩] }
        else
          let extraProps := sect.props.map Prod.fst
          let acc :=
            if extraProps.length > 0 then
              { acc with errors := acc.errors
                  ++ [⟨filePath, spath, rt,
                        ["Saved block should not have extra properties. Found: "
                          ++ String.intercalate ", " extraProps], none⟩] }
            else acc
          match getSavedBlockContent env rt with
          | none =>
              processSectionsF env fuel filePath rest processedBlocks
                { acc with errors := acc.errors
                    ++ [⟨filePath, spath, rt, ["Saved block not found: " ++ rt], none⟩] }
          | some blockContent =>
              let newProcessedBlocks := processedBlocks ++ [rt]
              match validateJsonFileF env fuel
                  (".deco/blocks/" ++ blockNameToFileName env rt) blockContent
                  newProcessedBlocks with
              | none => none
              | some blockResult =>
                  let acc :=
                    { acc with
                      usedSavedBlocks := blockResult.usedSavedBlocks.foldl addToSet
                        acc.usedSavedBlocks,
                      unresolvedResolveTypes := acc.unresolvedResolveTypes
                        ++ blockResult.unresolvedResolveTypes,
                      errors := acc.errors ++ blockResult.errors.map (fun blockError =>
                        ⟨filePath, spath ++ " -> " ++ blockError.sectionPath,
                          blockError.resolveType, blockError.errors, none⟩) }
                  processSectionsF env fuel filePath rest processedBlocks acc
      else
        match env.getSectionContent rt with
        | none =>
            processSectionsF env fuel filePath rest processedBlocks
              { acc with
                unresolvedResolveTypes := acc.unresolvedResolveTypes
                  ++ [⟨filePath, spath, rt⟩],
                errors := acc.errors
                  ++ [⟨filePath, spath, rt, ["Section not found: " ++ rt], none⟩] }
        | some sectionContent =>
            let sectionFilePath := (resolveTypeToPath env rt).head?
            match env.getExportDefaultFunctionProps sectionContent sectionFilePath with
            | none => processSectionsF env fuel filePath rest processedBlocks acc
            | some expectedProps =>
                if expectedProps.length = 0 then
                  processSectionsF env fuel filePath rest processedBlocks acc
                else
                  let validationErrors :=
                    env.validateProps sect.props expectedProps sectionContent sectionFilePath
                  if validationErrors.length > 0 then
                    processSectionsF env fuel filePath rest processedBlocks
                      { acc with errors := acc.errors
                          ++ [⟨filePath, spath, rt, validationErrors.map (fun e => e.message),
                                match validationErrors with
                                | firstError :: _ => firstError.line
                                | [] => none⟩] }
                  else processSectionsF env fuel filePath rest processedBlocks acc
termination_by (fuel, 1 + sizeOf sections)

end

/-!
## The type-expression resolver of the extractor

Model of `resolveTypeNode`, `buildValidationSchema`, the utility-type
resolvers and the recursion guard of the ts-parser module
(src/unnamed/part_010 lines 405-800).  The TypeScript AST is modelled by
`TypeNode`/`MemberSig`; `getText` is the source text of a node (the key
of the `processingTypes` guard).  The source's global `processingTypes`
set with `add` before and `delete` after each resolution is equivalent to
the `processing` list threaded here, which holds exactly the keys of the
resolutions currently on the call stack.  Fuel models the JS call stack:
a `some` answer certifies the source recursion completes.
-/

mutual

/-- A TypeScript type-expression node (the subset of AST shapes
`resolveTypeNode` distinguishes; anything else is `otherNode`). -/
inductive TypeNode where
  | stringKeyword : TypeNode
  | numberKeyword : TypeNode
  | booleanKeyword : TypeNode
  | nullKeyword : TypeNode
  | anyKeyword : TypeNode
  | arrayType (elementType : TypeNode) : TypeNode
  | unionType (types : List TypeNode) : TypeNode
  | typeReference (typeName : String) (typeArguments : Option (List TypeNode)) : TypeNode
  | typeLiteral (members : List MemberSig) : TypeNode
  | literalString (value : String) : TypeNode
  | otherNode (text : String) : TypeNode

/-- A property signature of an interface or type literal: name,
`questionToken`, presence of an `@ignore` JSDoc tag, declared type. -/
inductive MemberSig where
  | mk (name : String) (optional : Bool) (hasIgnore : Bool) (type : Option TypeNode) : MemberSig

end

/-- Name of a member signature. -/
def MemberSig.name : MemberSig → String
  | MemberSig.mk n _ _ _ => n

/-- `questionToken` of a member signature. -/
def MemberSig.optional : MemberSig → Bool
  | MemberSig.mk _ o _ _ => o

/-- Whether the member carries an `@ignore` JSDoc tag. -/
def MemberSig.hasIgnore : MemberSig → Bool
  | MemberSig.mk _ _ i _ => i

/-- Declared type of a member signature. -/
def MemberSig.type : MemberSig → Option TypeNode
  | MemberSig.mk _ _ _ t => t

mutual

/-- `typeNode.getText(sourceFile)`: the source text of a node, the key
used by the recursion guard (structurally equal nodes print equally, as
equal source text does in the original). -/
def TypeNode.getText : TypeNode → String
  | TypeNode.stringKeyword => "string"
  | TypeNode.numberKeyword => "number"
  | TypeNode.booleanKeyword => "boolean"
  | TypeNode.nullKeyword => "null"
  | TypeNode.anyKeyword => "any"
  | TypeNode.arrayType e => TypeNode.getText e ++ "[]"
  | TypeNode.unionType ts => String.intercalate " | " (TypeNode.getTextList ts)
  | TypeNode.typeReference n none => n
  | TypeNode.typeReference n (some args) =>
      n ++ "<" ++ String.intercalate ", " (TypeNode.getTextList args) ++ ">"
  | TypeNode.typeLiteral members =>
      "\x7b " ++ String.intercalate "; " (TypeNode.getTextMembers members) ++ " \x7d"
  | TypeNode.literalString s => "\"" ++ s ++ "\""
  | TypeNode.otherNode t => t

/-- Source texts of a list of nodes. -/
def TypeNode.getTextList : List TypeNode → List String
  | [] => []
  | t :: rest => TypeNode.getText t :: TypeNode.getTextList rest

/-- Source texts of member signatures. -/
def TypeNode.getTextMembers : List MemberSig → List String
  | [] => []
  | MemberSig.mk n o _ ty :: rest =>
      (n ++ (if o then "?" else "") ++ ": "
          ++ (match ty with | some t => TypeNode.getText t | none => ""))
        :: TypeNode.getTextMembers rest

end

/-- An `interface` declaration: name, names of the `extends` heritage
expressions, member signatures. -/
structure InterfaceDecl where
  name : String
  heritage : List String
  members : List MemberSig

/-- A source file, as the resolver sees it: its interface declarations
and type-alias declarations in order. -/
structure SourceFile where
  interfaces : List InterfaceDecl
  aliases : List (String × TypeNode)

/-- `resolveInterfaceByName` (ts-parser module).  The visitor assigns on
every top-level match, so the last declaration with the name wins. -/
def resolveInterfaceByName (typeName : String) (sf : SourceFile) : Option InterfaceDecl :=
  (sf.interfaces.filter (fun d => d.name == typeName)).getLast?

/-- `resolveTypeAliasByName` (ts-parser module); last match wins as for
interfaces. -/
def resolveTypeAliasByName (typeName : String) (sf : SourceFile) : Option TypeNode :=
  ((sf.aliases.filter (fun a => a.1 == typeName)).getLast?).map (fun a => a.2)

/-- The fixed allow-list of special domain types. -/
def specialTypes : List String :=
  ["ImageWidget", "RichText", "Color", "DateWidget", "DateTimeWidget",
    "Product", "ProductListingPage", "ProductDetailsPage"]

mutual

/-- `extractLiteralKeys` (ts-parser module): string-literal members of a
(possibly union) literal type. -/
def extractLiteralKeys : TypeNode → List String
  | TypeNode.literalString s => [s]
  | TypeNode.unionType types => extractLiteralKeysList types
  | _ => []

/-- List recursion of `extractLiteralKeys`. -/
def extractLiteralKeysList : List TypeNode → List String
  | [] => []
  | t :: rest => extractLiteralKeys t ++ extractLiteralKeysList rest

end

/-- JS object property assignment `props[k] = v`: overwrites in place when
the key exists (keeping its position), appends otherwise. -/
def setKey (props : List (String × TypeSchema)) (k : String) (v : TypeSchema) :
    List (String × TypeSchema) :=
  match props with
  | [] => [(k, v)]
  | (k1, v1) :: rest => if k1 == k then (k1, v) :: rest else (k1, v1) :: setKey rest k v

/-- `Object.assign(target, source)` on schema property maps. -/
def objectAssign (target source : List (String × TypeSchema)) : List (String × TypeSchema) :=
  match source with
  | [] => target
  | (k, v) :: rest => objectAssign (setKey target k v) rest

/-- `delete properties[k]` on a schema property map. -/
def deleteKey (props : List (String × TypeSchema)) (k : String) : List (String × TypeSchema) :=
  props.filter (fun p => p.1 != k)

/-- The `for (const key of omittedKeys) delete properties[key]` loop of
`resolveOmitType`. -/
def deleteKeys (props : List (String × TypeSchema)) (keys : List String) :
    List (String × TypeSchema) :=
  match keys with
  | [] => props
  | k :: rest => deleteKeys (deleteKey props k) rest

/-- The key-retention loop of `resolvePickType`, threading the properties
object being built: keep, in picked order, the keys present in the base
property map. -/
def pickKeysGo (props : List (String × TypeSchema)) (keys : List String)
    (properties : List (String × TypeSchema)) : List (String × TypeSchema) :=
  match keys with
  | [] => properties
  | k :: rest =>
      match getProp props k with
      | some v => pickKeysGo props rest (setKey properties k v)
      | none => pickKeysGo props rest properties

/-- The key-retention loop of `resolvePickType`, started from the empty
properties object. -/
def pickKeys (props : List (String × TypeSchema)) (keys : List String) :
    List (String × TypeSchema) :=
  pickKeysGo props keys []

/-- `schema.optional = o` / `{...schema, optional: o}`. -/
def TypeSchema.withOptional : TypeSchema → Bool → TypeSchema
  | TypeSchema.primitive t _, o => TypeSchema.primitive t o
  | TypeSchema.array e _, o => TypeSchema.array e o
  | TypeSchema.object p _, o => TypeSchema.object p o
  | TypeSchema.union u _, o => TypeSchema.union u o
  | TypeSchema.special s _, o => TypeSchema.special s o
  | TypeSchema.any _, o => TypeSchema.any o

mutual

/-- Fuel-indexed `resolveTypeNode` (ts-parser module lines 467-621),
with the `processingTypes` recursion guard threaded as `processing`. -/
def resolveTypeNodeF (fuel : Nat) (typeNode : Option TypeNode) (sf : SourceFile)
    (optional : Bool) (processing : List String) : Option TypeSchema :=
  match fuel with
  | 0 => none
  | fuel + 1 =>
      match typeNode with
      | none => some (TypeSchema.any optional)
      | some tn =>
          let typeKey := tn.getText
          if processing.contains typeKey then some (TypeSchema.any optional)
          else
            let processing := typeKey :: processing
            match tn with
            | TypeNode.stringKeyword => some (TypeSchema.primitive "string" optional)
            | TypeNode.numberKeyword => some (TypeSchema.primitive "number" optional)
            | TypeNode.booleanKeyword => some (TypeSchema.primitive "boolean" optional)
            | TypeNode.nullKeyword => some (TypeSchema.primitive "null" optional)
            | TypeNode.anyKeyword => some (TypeSchema.any optional)
            | TypeNode.arrayType elementType =>
                match resolveTypeNodeF fuel (some elementType) sf false processing with
                | none => none
                | some et => some (TypeSchema.array (some et) optional)
            | TypeNode.unionType types =>
                match resolveUnionTypesF fuel types sf processing with
                | none => none
                | some unionTypes => some (TypeSchema.union (some unionTypes) optional)
            | TypeNode.typeReference typeName typeArguments =>
                if specialTypes.contains typeName then
                  some (TypeSchema.special typeName optional)
                else if typeName == "Omit" && typeArguments.isSome then
                  resolveOmitTypeF fuel (typeArguments.getD []) sf optional processing
                else if typeName == "Pick" && typeArguments.isSome then
                  resolvePickTypeF fuel (typeArguments.getD []) sf optional processing
                else if typeName == "Partial" && typeArguments.isSome then
                  resolvePartialTypeF fuel (typeArguments.getD []) sf optional processing
                else
                  match resolveInterfaceByName typeName sf with
                  | some referencedInterface =>
                      match buildValidationSchemaF fuel referencedInterface sf processing with
                      | none => none
                      | some schema => some (schema.withOptional optional)
                  | none =>
                      match resolveTypeAliasByName typeName sf with
                      | some referencedType =>
                          resolveTypeNodeF fuel (some referencedType) sf optional processing
                      | none => some (TypeSchema.any optional)
            | TypeNode.typeLiteral members =>
                match resolveMembersF fuel members sf processing [] with
                | none => none
                | some properties => some (TypeSchema.object (some properties) optional)
            | TypeNode.literalString _ => some (TypeSchema.any optional)
            | TypeNode.otherNode _ => some (TypeSchema.any optional)
termination_by (fuel, 0, 0)

/-- The `typeNode.types.map(...)` loop of the union branch. -/
def resolveUnionTypesF (fuel : Nat) (types : List TypeNode) (sf : SourceFile)
    (processing : List String) : Option (List TypeSchema) :=
  match types with
  | [] => some []
  | t :: rest =>
      match resolveTypeNodeF fuel (some t) sf false processing with
      | none => none
      | some schema =>
          match resolveUnionTypesF fuel rest sf processing with
          | none => none
          | some schemas => some (schema :: schemas)
termination_by (fuel, 1, sizeOf types)

/-- The member loop shared by the type-literal branch of
`resolveTypeNode` and the member loop of `buildValidationSchema` (the two
loops in the source are textually identical): skip `@ignore` members,
resolve each declared type with the member optionality, assign into the
property map. -/
def resolveMembersF (fuel : Nat) (members : List MemberSig) (sf : SourceFile)
    (processing : List String) (acc : List (String × TypeSchema)) :
    Option (List (String × TypeSchema)) :=
  match members with
  | [] => some acc
  | member :: rest =>
      if member.hasIgnore then resolveMembersF fuel rest sf processing acc
      else
        match resolveTypeNodeF fuel member.type sf member.optional processing with
        | none => none
        | some propertySchema =>
            resolveMembersF fuel rest sf processing (setKey acc member.name propertySchema)
termination_by (fuel, 1, sizeOf members)

/-- Fuel-indexed `buildValidationSchema` (ts-parser module lines 405-462):
merge heritage properties first, then the declaration's own members. -/
def buildValidationSchemaF (fuel : Nat) (interfaceDecl : InterfaceDecl) (sf : SourceFile)
    (processing : List String) : Option TypeSchema :=
  match fuel with
  | 0 => none
  | fuel + 1 =>
      match buildHeritageF fuel interfaceDecl.heritage sf processing [] with
      | none => none
      | some inherited =>
          match resolveMembersF fuel interfaceDecl.members sf processing inherited with
          | none => none
          | some properties => some (TypeSchema.object (some properties) false)
termination_by (fuel, 2, 0)

/-- The heritage-clause loop of `buildValidationSchema`: resolve each base
interface by name and `Object.assign` its properties (unresolvable bases
are skipped). -/
def buildHeritageF (fuel : Nat) (heritage : List String) (sf : SourceFile)
    (processing : List String) (acc : List (String × TypeSchema)) :
    Option (List (String × TypeSchema)) :=
  match heritage with
  | [] => some acc
  | name :: rest =>
      match resolveInterfaceByName name sf with
      | some baseInterface =>
          match buildValidationSchemaF fuel baseInterface sf processing with
          | none => none
          | some baseSchema =>
              let acc := match baseSchema with
                | TypeSchema.object (some baseProps) _ => objectAssign acc baseProps
                | _ => acc
              buildHeritageF fuel rest sf processing acc
      | none => buildHeritageF fuel rest sf processing acc
termination_by (fuel, 3, sizeOf heritage)

/-- Fuel-indexed `resolveOmitType` (ts-parser module lines 690-716). -/
def resolveOmitTypeF (fuel : Nat) (typeArguments : List TypeNode) (sf : SourceFile)
    (optional : Bool) (processing : List String) : Option TypeSchema :=
  match typeArguments with
  | baseArg :: keysArg :: _ =>
      match resolveTypeNodeF fuel (some baseArg) sf false processing with
      | none => none
      | some baseType =>
          let omittedKeys := extractLiteralKeys keysArg
          match baseType with
          | TypeSchema.object (some properties) _ =>
              some (TypeSchema.object (some (deleteKeys properties omittedKeys)) optional)
          | _ => some baseType
  | _ => some (TypeSchema.any optional)
termination_by (fuel, 1, 0)

/-- Fuel-indexed `resolvePickType` (ts-parser module lines 721-749). -/
def resolvePickTypeF (fuel : Nat) (typeArguments : List TypeNode) (sf : SourceFile)
    (optional : Bool) (processing : List String) : Option TypeSchema :=
  match typeArguments with
  | baseArg :: keysArg :: _ =>
      match resolveTypeNodeF fuel (some baseArg) sf false processing with
      | none => none
      | some baseType =>
          let pickedKeys := extractLiteralKeys keysArg
          match baseType with
          | TypeSchema.object (some properties) _ =>
              some (TypeSchema.object (some (pickKeys properties pickedKeys)) optional)
          | _ => some baseType
  | _ => some (TypeSchema.any optional)
termination_by (fuel, 1, 0)

/-- Fuel-indexed `resolvePartialType` (ts-parser module lines 754-779). -/
def resolvePartialTypeF (fuel : Nat) (typeArguments : List TypeNode) (sf : SourceFile)
    (optional : Bool) (processing : List String) : Option TypeSchema :=
  match typeArguments with
  | baseArg :: _ =>
      match resolveTypeNodeF fuel (some baseArg) sf false processing with
      | none => none
      | some baseType =>
          match baseType with
          | TypeSchema.object (some properties) _ =>
              some (TypeSchema.object
                (some (properties.map (fun p => (p.1, p.2.withOptional true)))) optional)
          | _ => some baseType
  | _ => some (TypeSchema.any optional)
termination_by (fuel, 1, 0)

end

/-!
## Helper lemmas
-/

/-- Every schema has positive size. -/
theorem TypeSchema.sizeOf_pos (s : TypeSchema) : 0 < sizeOf s := by
  cases s <;> simp

/-- `joinPath` is injective in the final segment, for a fixed prefix. -/
theorem joinPath_right_injective (path : String) {a b : String}
    (h : joinPath path a = joinPath path b) : a = b := by
  unfold joinPath at h
  by_cases hp : path = ""
  · simpa [hp] using h
  · simp only [hp, if_false] at h
    apply String.ext
    have h2 := congrArg String.data h
    simpa [String.data_append] using List.append_cancel_left h2

/-- The extra-key scan is the per-key filter of the undeclared,
non-reserved keys, in input order. -/
theorem extraPropWarnings_eq_filter_map (keys : List String)
    (props : List (String × TypeSchema)) (path : String) :
    extraPropWarnings keys props path =
      (keys.filter (fun k => !jsStartsWith k "__" && !hasProp props k)).map
        (fun k => ⟨joinPath path k,
          "propriedade não definida na tipagem (pode ser removida)", Severity.warning⟩) := by
  induction keys with
  | nil => rfl
  | cons key rest ih =>
      by_cases h1 : jsStartsWith key "__" <;> by_cases h2 : hasProp props key <;>
        simp [extraPropWarnings, h1, h2, ih]

/-- A member loop of `validateUnion` that has a fully matching member
returns no issues. -/
theorem validateUnionList_pass (uts : List TypeSchema) (all : List TypeSchema) (v : Json)
    (path : String) (i : Bool)
    (h : ∃ ut ∈ uts, validateValue (some v) ut path i = []) :
    validateUnionList uts all v path i = [] := by
  induction uts with
  | nil => simp at h
  | cons ut rest ih =>
      rw [validateUnionList]
      by_cases hh : (validateValue (some v) ut path i).isEmpty
      · simp [hh]
      · simp only [hh, if_false]
        apply ih
        rcases h with ⟨u, hu, hue⟩
        rcases List.mem_cons.mp hu with rfl | hmem
        · exact absurd (by simp [hue]) hh
        · exact ⟨u, hmem, hue⟩

/-- A member loop of `validateUnion` in which every member produces at
least one issue returns the single union-mismatch error. -/
theorem validateUnionList_fail (uts : List TypeSchema) (all : List TypeSchema) (v : Json)
    (path : String) (i : Bool)
    (h : ∀ ut ∈ uts, validateValue (some v) ut path i ≠ []) :
    validateUnionList uts all v path i =
      [⟨path, "valor não corresponde a nenhum tipo da união ("
          ++ String.intercalate " | " (all.map unionMemberName) ++ ")", Severity.error⟩] := by
  induction uts with
  | nil => rw [validateUnionList]
  | cons ut rest ih =>
      rw [validateUnionList]
      have hne : ¬ (validateValue (some v) ut path i).isEmpty := by
        simpa [List.isEmpty_iff] using h ut (List.mem_cons_self ut rest)
      simp only [hne, if_false]
      exact ih (fun u hu => h u (List.mem_cons_of_mem ut hu))

/-!
## Claim theorems
-/

/-- C1: for every schema and path, validating an absent (undefined) value
returns exactly one error-severity issue "propriedade obrigatória
ausente" at that path when `schema.optional` is false and zero issues
when it is true; the outcome is the same for every schema kind (including
`any`), since the absence check precedes and short-circuits all other
rules. -/
theorem C1_absent_value (schema : TypeSchema) (path : String) (ignoreUnusedProps : Bool) :
    validateValue none schema path ignoreUnusedProps =
      (if schema.optional then []
        else [⟨path, "propriedade obrigatória ausente", Severity.error⟩]) := by
  rw [validateValue]

/-- C5: validating any non-object value (null, boolean, number, string or
array) against an object schema yields exactly one error whose message
reports the actual kind, where an array is reported as "array" and null
is reported as "object" (the `typeof null` quirk: null and object are not
distinguished in this message). -/
theorem C5_object_mismatch (v : Json) (properties : Option (List (String × TypeSchema)))
    (o : Bool) (path : String) (i : Bool) (h : v.isStructuralObject = false) :
    validateValue (some v) (TypeSchema.object properties o) path i =
        [⟨path, "esperado object, recebido " ++ (if v.isArray then "array" else jsTypeof v),
          Severity.error⟩]
      ∧ jsTypeof Json.null = "object"
      ∧ validateValue (some Json.null) (TypeSchema.object properties o) path i =
          [⟨path, "esperado object, recebido object", Severity.error⟩] := by
  refine ⟨?_, rfl, ?_⟩
  · cases v <;> simp [Json.isStructuralObject] at h ⊢ <;>
      simp [validateValue, validateObject, jsTypeof, Json.isArray]
  · simp [validateValue, validateObject, jsTypeof]

/-- Witness for C5 at the concrete non-object input `[]` (an array): the
mismatch error reports "array". -/
theorem C5_object_mismatch_witness :
    validateValue (some (Json.arr [])) (TypeSchema.object (some []) false) "p" false =
      [⟨"p", "esperado object, recebido array", Severity.error⟩] := by
  have h := (C5_object_mismatch (Json.arr []) (some []) false "p" false rfl).1
  rw [h]; decide

/-- C3: union semantics.  A union with a missing or empty member list
always passes; if some member validates with zero issues the union
passes with zero issues; and if every member produces at least one issue
the union yields exactly one error-severity issue listing the members
(primitive type name, special tag, or kind name, joined by " | "). -/
theorem C3_union (v : Json) (o : Bool) (path : String) (i : Bool) :
    (validateValue (some v) (TypeSchema.union none o) path i = []) ∧
    (validateValue (some v) (TypeSchema.union (some []) o) path i = []) ∧
    (∀ uts : List TypeSchema, (∃ ut ∈ uts, validateValue (some v) ut path i = []) →
        validateValue (some v) (TypeSchema.union (some uts) o) path i = []) ∧
    (∀ uts : List TypeSchema, uts ≠ [] →
        (∀ ut ∈ uts, validateValue (some v) ut path i ≠ []) →
        validateValue (some v) (TypeSchema.union (some uts) o) path i =
          [⟨path, "valor não corresponde a nenhum tipo da união ("
              ++ String.intercalate " | " (uts.map unionMemberName) ++ ")",
            Severity.error⟩]) := by
  refine ⟨by simp [validateValue, validateUnion], by simp [validateValue, validateUnion], ?_, ?_⟩
  · intro uts h
    rw [validateValue, validateUnion]
    rcases h with ⟨ut, hmem, hpass⟩
    have hne : ¬ uts.isEmpty := by
      cases uts
      · simp at hmem
      · simp
    simp only [hne, if_false]
    exact validateUnionList_pass uts uts v path i ⟨ut, hmem, hpass⟩
  · intro uts hne h
    rw [validateValue, validateUnion]
    have hne2 : ¬ uts.isEmpty := by simpa [List.isEmpty_iff] using hne
    simp only [hne2, if_false]
    exact validateUnionList_fail uts uts v path i h

/-- Witness for C3 at the spec's own example: `true` against
`string | number` fails with the union error naming both members, and
`42` against the same union passes. -/
theorem C3_union_witness :
    validateValue (some (Json.bool true))
        (TypeSchema.union
          (some [TypeSchema.primitive "string" false, TypeSchema.primitive "number" false])
          false) "root" false =
      [⟨"root", "valor não corresponde a nenhum tipo da união (string | number)",
        Severity.error⟩] ∧
    validateValue (some (Json.num 42))
        (TypeSchema.union
          (some [TypeSchema.primitive "string" false, TypeSchema.primitive "number" false])
          false) "root" false = [] := by
  constructor
  · have h := (C3_union (Json.bool true) false "root" false).2.2.2
      [TypeSchema.primitive "string" false, TypeSchema.primitive "number" false]
      (by simp)
      (by
        intro ut hut
        rcases List.mem_cons.mp hut with rfl | hut2
        · simp [validateValue]; decide
        · rcases List.mem_cons.mp hut2 with rfl | hut3
          · simp [validateValue]; decide
          · simp at hut3)
    rw [h]; decide
  · have h := (C3_union (Json.num 42) false "root" false).2.2.1
      [TypeSchema.primitive "string" false, TypeSchema.primitive "number" false]
      ⟨TypeSchema.primitive "number" false,
        List.mem_cons_of_mem _ (List.mem_cons_self _ _),
        by simp [validateValue]; decide⟩
    exact h

/-- C10: warnings inside a union member disqualify the member.  For the
union whose single member is the object schema with a required string
property "a", and the value carrying "a" plus an unknown key "extra",
the member alone yields only warning-severity issues (and at least one),
yet the union yields exactly one error-severity issue: the warning is not
propagated but escalated into the union-mismatch error. -/
theorem C10_union_escalates_warnings :
    (∀ e ∈ validateValue (some (Json.obj [("a", Json.str "x"), ("extra", Json.num 1)]))
        (TypeSchema.object (some [("a", TypeSchema.primitive "string" false)]) false)
        "root" false,
      e.severity = Severity.warning) ∧
    validateValue (some (Json.obj [("a", Json.str "x"), ("extra", Json.num 1)]))
        (TypeSchema.object (some [("a", TypeSchema.primitive "string" false)]) false)
        "root" false ≠ [] ∧
    validateValue (some (Json.obj [("a", Json.str "x"), ("extra", Json.num 1)]))
        (TypeSchema.union
          (some [TypeSchema.object (some [("a", TypeSchema.primitive "string" false)]) false])
          false)
        "root" false =
      [⟨"root", "valor não corresponde a nenhum tipo da união (object)", Severity.error⟩] := by
  have hmember : validateValue (some (Json.obj [("a", Json.str "x"), ("extra", Json.num 1)]))
      (TypeSchema.object (some [("a", TypeSchema.primitive "string" false)]) false)
      "root" false =
      [⟨"root.extra", "propriedade não definida na tipagem (pode ser removida)",
        Severity.warning⟩] := by
    simp [validateValue, validateObject, validateProperties, validatePrimitive,
      extraPropWarnings, getField, hasProp, joinPath, Json.isString]
    decide
  refine ⟨?_, ?_, ?_⟩
  · rw [hmember]; decide
  · rw [hmember]; decide
  · simp [validateValue, validateUnion, validateUnionList, hmember, unionMemberName]
    decide

/-- C9 counterexample: a nested node carrying the same target identifier
inside a matched node IS reported by the same `findInObject` call — the
scan records the outer match at "root" and the inner one at "child". -/
theorem C9_counterexample :
    (findInObject
        (Json.obj [("__resolveType", Json.str "T"),
          ("child", Json.obj [("__resolveType", Json.str "T")])])
        "T" "" none ⟨false, false, false, none⟩).map (fun occ => occ.path) =
      ["root", "child"] := by
  simp [findInObject, findInObjectEntries, findInArrayItems, occurrenceAt, getField]

/-- C9 (amended): when the scan meets an object node whose discriminator
equals the target it records the match and then still recurses into the
node's own subtree, so every occurrence found inside any field of the
node (in particular a nested node carrying the same target) is also
reported by the same call. -/
theorem C9_amended (fields : List (String × Json)) (target currentPath : String)
    (propsSchema : Option TypeSchema) (options : ValidationOptions) :
    (((match getField fields "__resolveType" with
        | some (Json.str rt) => rt == target
        | _ => false) : Bool) = true →
      findInObject (Json.obj fields) target currentPath propsSchema options =
        occurrenceAt currentPath fields propsSchema options
          :: findInObjectEntries fields target currentPath propsSchema options) ∧
    (∀ (k : String) (child : Json), (k, child) ∈ fields →
      ∀ occ ∈ findInObject child target
          (if currentPath = "" then k else currentPath ++ "." ++ k) propsSchema options,
        occ ∈ findInObject (Json.obj fields) target currentPath propsSchema options) := by
  constructor
  · intro h
    rw [findInObject]
    simp [h]
  · intro k child hmem occ hocc
    rw [findInObject]
    apply List.mem_append_right
    induction fields with
    | nil => simp at hmem
    | cons hd rest ih =>
        rw [findInObjectEntries]
        rcases List.mem_cons.mp hmem with rfl | hmem2
        · exact List.mem_append_left _ hocc
        · exact List.mem_append_right _ (ih hmem2)

/-- Witness for C9 (amended) at the counterexample document: the inner
occurrence recorded at path "child" is among the results of the outer
call. -/
theorem C9_amended_witness :
    (⟨"child", true, [],
        [⟨"Props", "interface Props não encontrada no arquivo", Severity.warning⟩]⟩ :
        Occurrence) ∈
      findInObject
        (Json.obj [("__resolveType", Json.str "T"),
          ("child", Json.obj [("__resolveType", Json.str "T")])])
        "T" "" none ⟨false, false, false, none⟩ := by
  have h := (C9_amended
      [("__resolveType", Json.str "T"), ("child", Json.obj [("__resolveType", Json.str "T")])]
      "T" "" none ⟨false, false, false, none⟩).2
      "child" (Json.obj [("__resolveType", Json.str "T")]) (by simp)
  apply h
  simp [findInObject, findInObjectEntries, occurrenceAt, getField]

/-- Every issue produced by `validatePrimitive` has error severity. -/
theorem validatePrimitive_severity (v : Json) (t p : String) :
    ∀ e ∈ validatePrimitive v t p, e.severity = Severity.error := by
  intro e he
  simp only [validatePrimitive] at he
  repeat' split at he
  all_goals simp_all

/-- Every issue produced by `validateSpecialType` has error severity. -/
theorem validateSpecialType_severity (v : Json) (st p : String) :
    ∀ e ∈ validateSpecialType v st p, e.severity = Severity.error := by
  intro e he
  simp only [validateSpecialType] at he
  repeat' split at he
  all_goals simp_all

/-- Every issue produced by the union member loop has error severity
(issues of failing members are discarded, never propagated). -/
theorem validateUnionList_severity (uts all : List TypeSchema) (v : Json) (path : String)
    (i : Bool) : ∀ e ∈ validateUnionList uts all v path i, e.severity = Severity.error := by
  induction uts with
  | nil => intro e he; rw [validateUnionList] at he; simp at he; simp [he]
  | cons ut rest ih =>
      intro e he
      rw [validateUnionList] at he
      split at he
      · simp at he
      · exact ih e he

/-- Every warning-severity issue the validator ever emits is an
extra-property warning located at `joinPath q k` for some key `k` that
does not start with the reserved `"__"` prefix — at any nesting depth. -/
theorem warning_issue_shape (n : Nat) :
    ∀ (value : Option Json) (schema : TypeSchema) (path : String) (i : Bool),
      sizeOf schema ≤ n →
      ∀ e ∈ validateValue value schema path i, e.severity = Severity.warning →
        ∃ q k, e.path = joinPath q k ∧ jsStartsWith k "__" = false ∧
          e.message = "propriedade não definida na tipagem (pode ser removida)" := by
  induction n using Nat.strong_induction_on with
  | _ n IH =>
    intro value schema path i hs e he hw
    cases value with
    | none =>
        rw [validateValue] at he
        split at he
        · simp at he
        · simp at he; rw [he] at hw; simp at hw
    | some v =>
      cases schema with
      | any o => rw [validateValue] at he; simp at he
      | primitive t o =>
          rw [validateValue] at he
          have := validatePrimitive_severity v t path e he
          rw [this] at hw; simp at hw
      | special st o =>
          rw [validateValue] at he
          have := validateSpecialType_severity v st path e he
          rw [this] at hw; simp at hw
      | union unionTypes o =>
          rw [validateValue] at he
          cases unionTypes with
          | none => simp only [validateUnion] at he; simp at he
          | some uts =>
              simp only [validateUnion] at he
              split at he
              · simp at he
              · have := validateUnionList_severity uts uts v path i e he
                rw [this] at hw; simp at hw
      | array elementType o =>
          rw [validateValue] at he
          cases v with
          | obj fields =>
              simp only [validateArray] at he
              split at he
              · simp at he
              · simp at he; rw [he] at hw; simp at hw
          | arr items =>
              cases elementType with
              | none => simp only [validateArray] at he; simp at he
              | some et =>
                  simp only [validateArray] at he
                  have het : sizeOf et < n := by
                    have h1 : sizeOf et < sizeOf (TypeSchema.array (some et) o) := by
                      simp; omega
                    omega
                  have hItems : ∀ (items2 : List Json) (p2 : String) (idx : Nat),
                      ∀ e2 ∈ validateItems items2 et p2 i idx,
                        e2.severity = Severity.warning →
                        ∃ q k, e2.path = joinPath q k ∧ jsStartsWith k "__" = false ∧
                          e2.message =
                            "propriedade não definida na tipagem (pode ser removida)" := by
                    intro items2
                    induction items2 with
                    | nil => intro p2 idx e2 he2; rw [validateItems] at he2; simp at he2
                    | cons item rest ihr =>
                        intro p2 idx e2 he2 hw2
                        rw [validateItems] at he2
                        rcases List.mem_append.mp he2 with hin | hin
                        · exact IH (sizeOf et) het (some item) et _ i le_rfl e2 hin hw2
                        · exact ihr p2 (idx + 1) e2 hin hw2
                  exact hItems items path 0 e he hw
          | null => simp only [validateArray] at he; simp at he; rw [he] at hw; simp at hw
          | bool b => simp only [validateArray] at he; simp at he; rw [he] at hw; simp at hw
          | num x => simp only [validateArray] at he; simp at he; rw [he] at hw; simp at hw
          | str s => simp only [validateArray] at he; simp at he; rw [he] at hw; simp at hw
      | object properties o =>
          rw [validateValue] at he
          cases v with
          | obj fields =>
              cases properties with
              | none => simp only [validateObject] at he; simp at he
              | some props =>
                  simp only [validateObject] at he
                  have hsize : sizeOf props < n := by
                    have h1 : sizeOf props <
                        sizeOf (TypeSchema.object (some props) o) := by simp; omega
                    omega
                  rcases List.mem_append.mp he with hin | hin
                  · have hProps : ∀ (ps2 : List (String × TypeSchema)), sizeOf ps2 < n →
                        ∀ (p2 : String) (e2 : ValidationError),
                          e2 ∈ validateProperties ps2 fields p2 i →
                          e2.severity = Severity.warning →
                          ∃ q k, e2.path = joinPath q k ∧ jsStartsWith k "__" = false ∧
                            e2.message =
                              "propriedade não definida na tipagem (pode ser removida)" := by
                      intro ps2
                      induction ps2 with
                      | nil => intro _ p2 e2 he2; rw [validateProperties] at he2; simp at he2
                      | cons hd rest ihr =>
                          intro hlt p2 e2 he2 hw2
                          obtain ⟨nm, psch⟩ := hd
                          rw [validateProperties] at he2
                          rcases List.mem_append.mp he2 with hin2 | hin2
                          · have hps : sizeOf psch < n := by
                              have h2 : sizeOf psch < sizeOf ((nm, psch) :: rest) := by
                                simp; omega
                              omega
                            exact IH (sizeOf psch) hps (getField fields nm) psch _ i le_rfl
                              e2 hin2 hw2
                          · have h3 : sizeOf rest < n := by
                              have h4 : sizeOf rest < sizeOf ((nm, psch) :: rest) := by
                                simp
                              omega
                            exact ihr h3 p2 e2 hin2 hw2
                    exact hProps props hsize path e hin hw
                  · split at hin
                    · simp at hin
                    · rw [extraPropWarnings_eq_filter_map] at hin
                      rcases List.mem_map.mp hin with ⟨k, hkf, rfl⟩
                      have hk := (List.mem_filter.mp hkf).2
                      simp only [Bool.and_eq_true, Bool.not_eq_true'] at hk
                      exact ⟨path, k, rfl, hk.1, rfl⟩
          | arr items =>
              simp only [validateObject] at he; simp at he; rw [he] at hw; simp at hw
          | null => simp only [validateObject] at he; simp at he; rw [he] at hw; simp at hw
          | bool b => simp only [validateObject] at he; simp at he; rw [he] at hw; simp at hw
          | num x => simp only [validateObject] at he; simp at he; rw [he] at hw; simp at hw
          | str s => simp only [validateObject] at he; simp at he; rw [he] at hw; simp at hw

/-- Building an extra-property warning from a key is injective for a
fixed path prefix. -/
theorem mkWarning_injective (path : String) :
    Function.Injective (fun k => (⟨joinPath path k,
      "propriedade não definida na tipagem (pode ser removida)",
      Severity.warning⟩ : ValidationError)) := by
  intro a b hab
  exact joinPath_right_injective path (congrArg ValidationError.path hab)

/-- With duplicate-free input keys, a qualifying key contributes exactly
one warning to the extra-key scan. -/
theorem extraPropWarnings_count_one (keys : List String) (props : List (String × TypeSchema))
    (path : String) (k : String) (hnd : keys.Nodup) (hk : k ∈ keys)
    (h1 : jsStartsWith k "__" = false) (h2 : hasProp props k = false) :
    (extraPropWarnings keys props path).count
      ⟨joinPath path k, "propriedade não definida na tipagem (pode ser removida)",
        Severity.warning⟩ = 1 := by
  rw [extraPropWarnings_eq_filter_map]
  rw [List.count_map_of_injective _ _ (mkWarning_injective path)]
  apply List.count_eq_one_of_mem (hnd.filter _)
  exact List.mem_filter.mpr ⟨hk, by simp [h1, h2]⟩

/-- C4: with `ignoreUnknownProperties` false, validating an object value
against an object schema with declared properties appends, after the
declared-property issues, exactly one warning "propriedade não definida
na tipagem (pode ser removida)" at `<path>.<key>` for every own key that
is neither declared nor starts with the reserved "__" prefix (exactly one
per key since JS object keys are duplicate-free); keys starting with "__"
are never flagged — at any nesting depth, every warning the validator
emits sits at a path whose final segment does not start with "__" — and
with `ignoreUnknownProperties` true no such warnings are emitted. -/
theorem C4_unknown_property_warnings (fields : List (String × Json))
    (props : List (String × TypeSchema)) (path : String) (o : Bool) :
    (validateValue (some (Json.obj fields)) (TypeSchema.object (some props) o) path false =
        validateProperties props fields path false
          ++ extraPropWarnings (fields.map Prod.fst) props path) ∧
    (extraPropWarnings (fields.map Prod.fst) props path =
        ((fields.map Prod.fst).filter
            (fun k => !jsStartsWith k "__" && !hasProp props k)).map
          (fun k => ⟨joinPath path k,
            "propriedade não definida na tipagem (pode ser removida)", Severity.warning⟩)) ∧
    (∀ k : String, (fields.map Prod.fst).Nodup → k ∈ fields.map Prod.fst →
        jsStartsWith k "__" = false → hasProp props k = false →
        (extraPropWarnings (fields.map Prod.fst) props path).count
          ⟨joinPath path k, "propriedade não definida na tipagem (pode ser removida)",
            Severity.warning⟩ = 1) ∧
    (∀ k : String, jsStartsWith k "__" = true →
        ∀ e ∈ extraPropWarnings (fields.map Prod.fst) props path,
          e.path ≠ joinPath path k) ∧
    (validateValue (some (Json.obj fields)) (TypeSchema.object (some props) o) path true =
        validateProperties props fields path true) ∧
    (∀ (value : Option Json) (schema : TypeSchema) (p : String) (i : Bool),
        ∀ e ∈ validateValue value schema p i, e.severity = Severity.warning →
          ∃ q k2, e.path = joinPath q k2 ∧ jsStartsWith k2 "__" = false ∧
            e.message = "propriedade não definida na tipagem (pode ser removida)") := by
  refine ⟨?_, extraPropWarnings_eq_filter_map _ _ _, ?_, ?_, ?_, ?_⟩
  · rw [validateValue]; simp [validateObject]
  · intro k hnd hk h1 h2
    exact extraPropWarnings_count_one _ props path k hnd hk h1 h2
  · intro k hpre e he hpath
    rw [extraPropWarnings_eq_filter_map] at he
    rcases List.mem_map.mp he with ⟨k2, hk2, rfl⟩
    have h2 := (List.mem_filter.mp hk2).2
    simp only [Bool.and_eq_true, Bool.not_eq_true'] at h2
    have : k2 = k := joinPath_right_injective path hpath
    rw [this] at h2
    rw [h2.1] at hpre
    exact Bool.false_ne_true hpre
  · rw [validateValue]; simp [validateObject]
  · intro value schema p i e he hw
    exact warning_issue_shape (sizeOf schema) value schema p i le_rfl e he hw

/-- Witness for C4 at the spec's end-to-end example shape: key "extra"
(undeclared, not reserved) warns exactly once at "root.extra", and the
reserved key "__resolveType" is never flagged. -/
theorem C4_unknown_property_warnings_witness :
    (extraPropWarnings ["a", "extra", "__resolveType"]
        [("a", TypeSchema.primitive "string" false)] "root").count
      ⟨"root.extra", "propriedade não definida na tipagem (pode ser removida)",
        Severity.warning⟩ = 1 ∧
    (∀ e ∈ extraPropWarnings ["a", "extra", "__resolveType"]
        [("a", TypeSchema.primitive "string" false)] "root",
      e.path ≠ "root.__resolveType") := by
  have h := C4_unknown_property_warnings
    [("a", Json.str "x"), ("extra", Json.num 1), ("__resolveType", Json.str "s")]
    [("a", TypeSchema.primitive "string" false)] "root" false
  constructor
  · have h3 := h.2.2.1 "extra" (by decide) (by simp) (by decide) (by decide)
    simpa [joinPath] using h3
  · have h4 := h.2.2.2.1 "__resolveType" (by decide)
    intro e he hp
    exact h4 e (by simpa using he) (by simpa [joinPath] using hp)

/-- With fuel at least the schema size, the fuel-indexed validator
completes and agrees with the total one, for every JSON value. -/
theorem validateValueF_complete (n : Nat) :
    ∀ (value : Option Json) (schema : TypeSchema) (path : String) (i : Bool),
      sizeOf schema ≤ n →
      validateValueF n value schema path i = some (validateValue value schema path i) := by
  induction n using Nat.strong_induction_on with
  | _ n IH =>
    cases n with
    | zero =>
        intro value schema path i hs
        have := TypeSchema.sizeOf_pos schema
        omega
    | succ m =>
      have hVal : ∀ (value : Option Json) (schema : TypeSchema) (path : String) (i : Bool),
          sizeOf schema ≤ m →
          validateValueF m value schema path i = some (validateValue value schema path i) :=
        IH m (Nat.lt_succ_self m)
      have hItems : ∀ (et : TypeSchema), sizeOf et ≤ m →
          ∀ (items : List Json) (path : String) (i : Bool) (idx : Nat),
          validateItemsF m items et path i idx = some (validateItems items et path i idx) := by
        intro et het items
        induction items with
        | nil => intro path i idx; rw [validateItemsF, validateItems]
        | cons item rest ihr =>
            intro path i idx
            rw [validateItemsF, validateItems,
              hVal (some item) et (path ++ "[" ++ toString idx ++ "]") i het,
              ihr path i (idx + 1)]
      have hArr : ∀ (v : Json) (elementType : Option TypeSchema) (path : String) (i : Bool),
          sizeOf elementType ≤ m →
          validateArrayF m v elementType path i = some (validateArray v elementType path i) := by
        intro v elementType path i het
        cases v with
        | obj fields =>
            rw [validateArrayF, validateArray]
            by_cases hk : hasKey fields "__resolveType" <;> simp [hk]
        | arr items =>
            cases elementType with
            | none => rw [validateArrayF, validateArray]
            | some et =>
                rw [validateArrayF, validateArray]
                apply hItems
                have : sizeOf et < sizeOf (some et) := by simp
                omega
        | null => rw [validateArrayF, validateArray] <;> simp
        | bool b => rw [validateArrayF, validateArray] <;> simp
        | num x => rw [validateArrayF, validateArray] <;> simp
        | str s => rw [validateArrayF, validateArray] <;> simp
      have hProps : ∀ (props : List (String × TypeSchema)), sizeOf props ≤ m →
          ∀ (fields : List (String × Json)) (path : String) (i : Bool),
          validatePropertiesF m props fields path i =
            some (validateProperties props fields path i) := by
        intro props
        induction props with
        | nil => intro _ fields path i; rw [validatePropertiesF, validateProperties]
        | cons hd rest ihr =>
            intro hle fields path i
            obtain ⟨nm, ps⟩ := hd
            have h1 : sizeOf ps ≤ m := by
              have : sizeOf ps < sizeOf ((nm, ps) :: rest) := by simp; omega
              omega
            have h2 : sizeOf rest ≤ m := by
              have : sizeOf rest < sizeOf ((nm, ps) :: rest) := by simp
              omega
            rw [validatePropertiesF, validateProperties,
              hVal (getField fields nm) ps (joinPath path nm) i h1, ihr h2 fields path i]
      have hObj : ∀ (v : Json) (properties : Option (List (String × TypeSchema)))
          (path : String) (i : Bool), sizeOf properties ≤ m →
          validateObjectF m v properties path i =
            some (validateObject v properties path i) := by
        intro v properties path i hp
        cases v with
        | obj fields =>
            cases properties with
            | none => rw [validateObjectF, validateObject]
            | some props =>
                have h1 : sizeOf props ≤ m := by
                  have : sizeOf props < sizeOf (some props) := by simp
                  omega
                rw [validateObjectF, validateObject, hProps props h1 fields path i]
        | arr items => rw [validateObjectF, validateObject]
        | null => rw [validateObjectF, validateObject] <;> simp
        | bool b => rw [validateObjectF, validateObject] <;> simp
        | num x => rw [validateObjectF, validateObject] <;> simp
        | str s => rw [validateObjectF, validateObject] <;> simp
      have hUL : ∀ (uts : List TypeSchema), sizeOf uts ≤ m →
          ∀ (all : List TypeSchema) (v : Json) (path : String) (i : Bool),
          validateUnionListF m uts all v path i =
            some (validateUnionList uts all v path i) := by
        intro uts
        induction uts with
        | nil => intro _ all v path i; rw [validateUnionListF, validateUnionList]
        | cons ut rest ihr =>
            intro hle all v path i
            have h1 : sizeOf ut ≤ m := by
              have : sizeOf ut < sizeOf (ut :: rest) := by simp; omega
              omega
            have h2 : sizeOf rest ≤ m := by
              have : sizeOf rest < sizeOf (ut :: rest) := by simp
              omega
            rw [validateUnionListF, validateUnionList, hVal (some v) ut path i h1]
            by_cases he : (validateValue (some v) ut path i).isEmpty <;>
              simp [he, ihr h2 all v path i]
      intro value schema path i hs
      cases value with
      | none => rw [validateValueF, validateValue]
      | some v =>
        cases schema with
        | any o => rw [validateValueF, validateValue]
        | primitive t o => rw [validateValueF, validateValue]
        | special st o => rw [validateValueF, validateValue]
        | array elementType o =>
            have h1 : sizeOf elementType ≤ m := by simp at hs; omega
            rw [validateValueF, validateValue, hArr v elementType path i h1]
        | object properties o =>
            have h1 : sizeOf properties ≤ m := by simp at hs; omega
            rw [validateValueF, validateValue, hObj v properties path i h1]
        | union unionTypes o =>
            have h1 : sizeOf unionTypes ≤ m := by simp at hs; omega
            rw [validateValueF, validateValue]
            cases unionTypes with
            | none => rw [validateUnionF, validateUnion]
            | some uts =>
                have h2 : sizeOf uts ≤ m := by
                  have : sizeOf uts < sizeOf (some uts) := by simp
                  omega
                rw [validateUnionF, validateUnion]
                by_cases he : uts.isEmpty <;> simp [he, hUL uts h2 uts v path i]

/-- C2: the validator is total.  For every JSON value (including null,
booleans, numbers, strings, arrays and arbitrarily nested objects, and
the absent value) and every schema, the fuel-indexed mirror of the
recursion completes within `sizeOf schema` nested calls — it never runs
out of fuel (models: never diverges or throws) — and returns exactly the
issue list of `validateValue`. -/
theorem C2_validator_total (value : Option Json) (schema : TypeSchema) (path : String)
    (ignoreUnusedProps : Bool) :
    validateValueF (sizeOf schema) value schema path ignoreUnusedProps =
      some (validateValue value schema path ignoreUnusedProps) :=
  validateValueF_complete (sizeOf schema) value schema path ignoreUnusedProps le_rfl

/-- C6: type extraction terminates on self-referential and
mutually-referential type graphs.  (i) Whenever resolution of a type
expression is requested while its textual form is already on the current
resolution stack, the resolver immediately returns the `any` schema
instead of recursing.  (ii) For the circular alias `type A = { self: A }`,
resolution completes with any fuel of at least 4 — the recursion is
finite, it neither loops nor crashes — and yields `any` for the
self-referential field.  (iii) The mutually-referential pair
`type A = { b: B }; type B = { a: A }` likewise completes, the inner
back-reference resolving to `any`. -/
theorem C6_recursion_guard :
    (∀ (fuel : Nat) (tn : TypeNode) (sf : SourceFile) (optional : Bool)
        (processing : List String), processing.contains tn.getText = true →
      resolveTypeNodeF (fuel + 1) (some tn) sf optional processing =
        some (TypeSchema.any optional)) ∧
    (∀ extra : Nat,
      resolveTypeNodeF (extra + 4) (some (TypeNode.typeReference "A" none))
        ⟨[], [("A", TypeNode.typeLiteral
          [MemberSig.mk "self" false false (some (TypeNode.typeReference "A" none))])]⟩
        false [] =
      some (TypeSchema.object (some [("self", TypeSchema.any false)]) false)) ∧
    (∀ extra : Nat,
      resolveTypeNodeF (extra + 6) (some (TypeNode.typeReference "A" none))
        ⟨[], [("A", TypeNode.typeLiteral
            [MemberSig.mk "b" false false (some (TypeNode.typeReference "B" none))]),
          ("B", TypeNode.typeLiteral
            [MemberSig.mk "a" false false (some (TypeNode.typeReference "A" none))])]⟩
        false [] =
      some (TypeSchema.object
        (some [("b", TypeSchema.object (some [("a", TypeSchema.any false)]) false)])
        false)) := by
  refine ⟨?_, ?_, ?_⟩
  · intro fuel tn sf optional processing h
    have h2 : tn.getText ∈ processing := by simpa using h
    cases tn <;> simp [resolveTypeNodeF, h2]
  · intro extra
    simp +decide [resolveTypeNodeF, resolveMembersF, resolveTypeAliasByName,
      resolveInterfaceByName, TypeNode.getText, TypeNode.getTextList, TypeNode.getTextMembers,
      specialTypes, setKey, MemberSig.hasIgnore, MemberSig.type,
      MemberSig.optional, MemberSig.name]
  · intro extra
    simp +decide [resolveTypeNodeF, resolveMembersF, resolveTypeAliasByName,
      resolveInterfaceByName, TypeNode.getText, TypeNode.getTextList, TypeNode.getTextMembers,
      specialTypes, setKey, MemberSig.hasIgnore, MemberSig.type,
      MemberSig.optional, MemberSig.name]

/-- Witness for C6: with the expression text "A" already on the
resolution stack, the resolver answers `any` at once. -/
theorem C6_recursion_guard_witness :
    resolveTypeNodeF 1 (some (TypeNode.typeReference "A" none)) ⟨[], []⟩ true ["A"] =
      some (TypeSchema.any true) :=
  C6_recursion_guard.1 0 (TypeNode.typeReference "A" none) ⟨[], []⟩ true ["A"] (by decide)

/-- Head-step of the property lookup. -/
theorem getProp_cons (k1 : String) (v1 : TypeSchema) (rest : List (String × TypeSchema))
    (k2 : String) :
    getProp ((k1, v1) :: rest) k2 = if k1 = k2 then some v1 else getProp rest k2 := by
  by_cases h : k1 = k2 <;> simp [getProp, List.find?_cons, h]

/-- Lookup after a JS property assignment: the assigned key reads the new
value, others are untouched. -/
theorem getProp_setKey (props : List (String × TypeSchema)) (k : String) (v : TypeSchema)
    (k2 : String) :
    getProp (setKey props k v) k2 = if k2 = k then some v else getProp props k2 := by
  induction props with
  | nil =>
      rw [setKey, getProp_cons]
      by_cases h : k2 = k
      · simp [h]
      · simp [h, Ne.symm h, getProp]
  | cons hd rest ih =>
      obtain ⟨k1, v1⟩ := hd
      by_cases h1 : k1 = k
      · subst h1
        simp only [setKey, beq_self_eq_true, if_true]
        rw [getProp_cons, getProp_cons]
        by_cases h2 : k2 = k1
        · simp [h2]
        · simp [h2, Ne.symm h2]
      · have h1b : (k1 == k) = false := by simp [h1]
        simp only [setKey, h1b, Bool.false_eq_true, if_false]
        rw [getProp_cons, ih, getProp_cons]
        by_cases h2 : k1 = k2
        · have h3 : ¬ k2 = k := fun hh => h1 (h2.trans hh)
          simp [h2, h3]
        · simp [h2]

/-- `k in props` agrees with the lookup. -/
theorem hasProp_eq_isSome (props : List (String × TypeSchema)) (k : String) :
    hasProp props k = (getProp props k).isSome := by
  simp [hasProp, getProp]

/-- The delete loop of `resolveOmitType` is the filter that drops exactly
the named keys, preserving order. -/
theorem deleteKeys_eq_filter (keys : List String) (props : List (String × TypeSchema)) :
    deleteKeys props keys = props.filter (fun p => !keys.contains p.1) := by
  induction keys generalizing props with
  | nil => simp [deleteKeys]
  | cons k ks ih =>
      rw [deleteKeys, ih, deleteKey, List.filter_filter]
      apply List.filter_congr
      intro p _
      by_cases h1 : p.1 = k <;> by_cases h2 : ks.contains p.1 <;>
        simp [h1, h2, List.contains_cons]

/-- Lookup in the pick loop's accumulator: a key named in the remaining
picked keys and present in the base reads its base value; otherwise the
accumulator is untouched. -/
theorem getProp_pickKeysGo (props : List (String × TypeSchema)) (keys : List String)
    (acc : List (String × TypeSchema)) (k : String) :
    getProp (pickKeysGo props keys acc) k =
      if keys.contains k then
        (match getProp props k with
          | some v => some v
          | none => getProp acc k)
      else getProp acc k := by
  induction keys generalizing acc with
  | nil => simp [pickKeysGo]
  | cons k1 ks ih =>
      rw [pickKeysGo]
      by_cases hk1 : k = k1
      · subst hk1
        cases hp : getProp props k with
        | none =>
            rw [ih acc]
            by_cases hks : ks.contains k <;> simp [hks, hp, List.contains_cons]
        | some v =>
            rw [ih (setKey acc k v)]
            by_cases hks : ks.contains k <;>
              simp [hks, hp, List.contains_cons, getProp_setKey]
      · cases hp : getProp props k1 with
        | none =>
            rw [ih acc]
            by_cases hks : ks.contains k <;>
              simp [hks, List.contains_cons, hk1, Ne.symm hk1]
        | some v =>
            rw [ih (setKey acc k1 v)]
            by_cases hks : ks.contains k <;>
              simp [hks, List.contains_cons, getProp_setKey, hk1, Ne.symm hk1]

/-- Lookup in the result of the pick loop: exactly the named keys that
exist in the base, with their base values. -/
theorem getProp_pickKeys (props : List (String × TypeSchema)) (keys : List String)
    (k : String) :
    getProp (pickKeys props keys) k =
      if keys.contains k then getProp props k else none := by
  rw [pickKeys, getProp_pickKeysGo]
  cases hp : getProp props k <;> by_cases h : keys.contains k <;> simp [h, hp, getProp]

/-- Marking a schema optional sets its `optional` field. -/
theorem withOptional_optional (s : TypeSchema) (o : Bool) :
    (s.withOptional o).optional = o := by
  cases s <;> rfl

/-- C7: the utility-type call forms.  With the guard not triggered, if the
base type argument resolves to an object schema then `Omit<Base, K...>`
resolves to an object schema with exactly the base's properties minus the
named keys, `Pick<Base, K...>` to one whose lookup answers exactly the
named keys that exist in the base, and `Partial<Base>` to one with every
property marked optional; and whenever the base resolves to anything that
is not an object schema with properties, each of the three returns the
base schema unchanged. -/
theorem C7_utility_transforms (fuel : Nat) (sf : SourceFile) (processing : List String)
    (optional : Bool) (baseArg keysArg : TypeNode) :
    (∀ (props : List (String × TypeSchema)) (bo : Bool),
      processing.contains
          (TypeNode.typeReference "Omit" (some [baseArg, keysArg])).getText = false →
      resolveTypeNodeF fuel (some baseArg) sf false
          ((TypeNode.typeReference "Omit" (some [baseArg, keysArg])).getText :: processing) =
        some (TypeSchema.object (some props) bo) →
      resolveTypeNodeF (fuel + 1)
          (some (TypeNode.typeReference "Omit" (some [baseArg, keysArg]))) sf optional
          processing =
        some (TypeSchema.object
          (some (props.filter (fun p => !(extractLiteralKeys keysArg).contains p.1)))
          optional)) ∧
    (∀ B : TypeSchema,
      processing.contains
          (TypeNode.typeReference "Omit" (some [baseArg, keysArg])).getText = false →
      resolveTypeNodeF fuel (some baseArg) sf false
          ((TypeNode.typeReference "Omit" (some [baseArg, keysArg])).getText :: processing) =
        some B →
      (∀ (props : List (String × TypeSchema)) (bo : Bool),
        B ≠ TypeSchema.object (some props) bo) →
      resolveTypeNodeF (fuel + 1)
          (some (TypeNode.typeReference "Omit" (some [baseArg, keysArg]))) sf optional
          processing = some B) ∧
    (∀ (props : List (String × TypeSchema)) (bo : Bool),
      processing.contains
          (TypeNode.typeReference "Pick" (some [baseArg, keysArg])).getText = false →
      resolveTypeNodeF fuel (some baseArg) sf false
          ((TypeNode.typeReference "Pick" (some [baseArg, keysArg])).getText :: processing) =
        some (TypeSchema.object (some props) bo) →
      resolveTypeNodeF (fuel + 1)
          (some (TypeNode.typeReference "Pick" (some [baseArg, keysArg]))) sf optional
          processing =
        some (TypeSchema.object
          (some (pickKeys props (extractLiteralKeys keysArg))) optional)) ∧
    (∀ (props : List (String × TypeSchema)) (keys : List String) (k : String),
      getProp (pickKeys props keys) k =
        if keys.contains k then getProp props k else none) ∧
    (∀ B : TypeSchema,
      processing.contains
          (TypeNode.typeReference "Pick" (some [baseArg, keysArg])).getText = false →
      resolveTypeNodeF fuel (some baseArg) sf false
          ((TypeNode.typeReference "Pick" (some [baseArg, keysArg])).getText :: processing) =
        some B →
      (∀ (props : List (String × TypeSchema)) (bo : Bool),
        B ≠ TypeSchema.object (some props) bo) →
      resolveTypeNodeF (fuel + 1)
          (some (TypeNode.typeReference "Pick" (some [baseArg, keysArg]))) sf optional
          processing = some B) ∧
    (∀ (props : List (String × TypeSchema)) (bo : Bool),
      processing.contains
          (TypeNode.typeReference "Partial" (some [baseArg])).getText = false →
      resolveTypeNodeF fuel (some baseArg) sf false
          ((TypeNode.typeReference "Partial" (some [baseArg])).getText :: processing) =
        some (TypeSchema.object (some props) bo) →
      resolveTypeNodeF (fuel + 1)
          (some (TypeNode.typeReference "Partial" (some [baseArg]))) sf optional
          processing =
        some (TypeSchema.object
          (some (props.map (fun p => (p.1, p.2.withOptional true)))) optional)) ∧
    (∀ props : List (String × TypeSchema),
      ∀ p ∈ props.map (fun q => (q.1, q.2.withOptional true)), p.2.optional = true) ∧
    (∀ B : TypeSchema,
      processing.contains
          (TypeNode.typeReference "Partial" (some [baseArg])).getText = false →
      resolveTypeNodeF fuel (some baseArg) sf false
          ((TypeNode.typeReference "Partial" (some [baseArg])).getText :: processing) =
        some B →
      (∀ (props : List (String × TypeSchema)) (bo : Bool),
        B ≠ TypeSchema.object (some props) bo) →
      resolveTypeNodeF (fuel + 1)
          (some (TypeNode.typeReference "Partial" (some [baseArg]))) sf optional
          processing = some B) := by
  refine ⟨?_, ?_, ?_, getProp_pickKeys, ?_, ?_, ?_, ?_⟩
  · intro props bo hg hB
    have hg2 : (TypeNode.typeReference "Omit" (some [baseArg, keysArg])).getText ∉
        processing := by simpa using hg
    simp +decide [resolveTypeNodeF, hg2, specialTypes, resolveOmitTypeF, hB,
      deleteKeys_eq_filter]
  · intro B hg hB hno
    have hg2 : (TypeNode.typeReference "Omit" (some [baseArg, keysArg])).getText ∉
        processing := by simpa using hg
    simp +decide [resolveTypeNodeF, hg2, specialTypes, resolveOmitTypeF, hB]
  · intro props bo hg hB
    have hg2 : (TypeNode.typeReference "Pick" (some [baseArg, keysArg])).getText ∉
        processing := by simpa using hg
    simp +decide [resolveTypeNodeF, hg2, specialTypes, resolvePickTypeF, hB]
  · intro B hg hB hno
    have hg2 : (TypeNode.typeReference "Pick" (some [baseArg, keysArg])).getText ∉
        processing := by simpa using hg
    simp +decide [resolveTypeNodeF, hg2, specialTypes, resolvePickTypeF, hB]
  · intro props bo hg hB
    have hg2 : (TypeNode.typeReference "Partial" (some [baseArg])).getText ∉
        processing := by simpa using hg
    simp +decide [resolveTypeNodeF, hg2, specialTypes, resolvePartialTypeF, hB]
  · intro props p hp
    rcases List.mem_map.mp hp with ⟨q, _, rfl⟩
    exact withOptional_optional q.2 true
  · intro B hg hB hno
    have hg2 : (TypeNode.typeReference "Partial" (some [baseArg])).getText ∉
        processing := by simpa using hg
    simp +decide [resolveTypeNodeF, hg2, specialTypes, resolvePartialTypeF, hB]

/-- Witness for C7 at the spec's own examples over the inline base
`{ a: string; b: string; c: number }`: `Omit<Base, "b">` keeps `a, c`;
`Pick<Base, "a" | "b">` keeps `a, b`; `Partial<Base>` marks all three
optional; and `Omit<string, "b">` returns the base unchanged. -/
theorem C7_utility_transforms_witness :
    resolveTypeNodeF 3
        (some (TypeNode.typeReference "Omit"
          (some [TypeNode.typeLiteral
              [MemberSig.mk "a" false false (some TypeNode.stringKeyword),
                MemberSig.mk "b" false false (some TypeNode.stringKeyword),
                MemberSig.mk "c" false false (some TypeNode.numberKeyword)],
            TypeNode.literalString "b"]))) ⟨[], []⟩ false [] =
      some (TypeSchema.object
        (some [("a", TypeSchema.primitive "string" false),
          ("c", TypeSchema.primitive "number" false)]) false) ∧
    resolveTypeNodeF 3
        (some (TypeNode.typeReference "Pick"
          (some [TypeNode.typeLiteral
              [MemberSig.mk "a" false false (some TypeNode.stringKeyword),
                MemberSig.mk "b" false false (some TypeNode.stringKeyword),
                MemberSig.mk "c" false false (some TypeNode.numberKeyword)],
            TypeNode.unionType [TypeNode.literalString "a", TypeNode.literalString "b"]])))
        ⟨[], []⟩ false [] =
      some (TypeSchema.object
        (some [("a", TypeSchema.primitive "string" false),
          ("b", TypeSchema.primitive "string" false)]) false) ∧
    resolveTypeNodeF 3
        (some (TypeNode.typeReference "Partial"
          (some [TypeNode.typeLiteral
              [MemberSig.mk "a" false false (some TypeNode.stringKeyword),
                MemberSig.mk "b" false false (some TypeNode.stringKeyword),
                MemberSig.mk "c" false false (some TypeNode.numberKeyword)]])))
        ⟨[], []⟩ false [] =
      some (TypeSchema.object
        (some [("a", TypeSchema.primitive "string" true),
          ("b", TypeSchema.primitive "string" true),
          ("c", TypeSchema.primitive "number" true)]) false) ∧
    resolveTypeNodeF 3
        (some (TypeNode.typeReference "Omit"
          (some [TypeNode.stringKeyword, TypeNode.literalString "b"]))) ⟨[], []⟩ false [] =
      some (TypeSchema.primitive "string" false) := by
  refine ⟨?_, ?_, ?_, ?_⟩
  · have h := (C7_utility_transforms 2 ⟨[], []⟩ [] false
        (TypeNode.typeLiteral
          [MemberSig.mk "a" false false (some TypeNode.stringKeyword),
            MemberSig.mk "b" false false (some TypeNode.stringKeyword),
            MemberSig.mk "c" false false (some TypeNode.numberKeyword)])
        (TypeNode.literalString "b")).1
        [("a", TypeSchema.primitive "string" false),
          ("b", TypeSchema.primitive "string" false),
          ("c", TypeSchema.primitive "number" false)] false
        (by decide)
        (by simp +decide [resolveTypeNodeF, resolveMembersF, setKey,
          MemberSig.hasIgnore, MemberSig.type, MemberSig.optional, MemberSig.name,
          TypeNode.getText, TypeNode.getTextList, TypeNode.getTextMembers])
    simpa +decide [extractLiteralKeys] using h
  · have h := (C7_utility_transforms 2 ⟨[], []⟩ [] false
        (TypeNode.typeLiteral
          [MemberSig.mk "a" false false (some TypeNode.stringKeyword),
            MemberSig.mk "b" false false (some TypeNode.stringKeyword),
            MemberSig.mk "c" false false (some TypeNode.numberKeyword)])
        (TypeNode.unionType [TypeNode.literalString "a", TypeNode.literalString "b"])).2.2.1
        [("a", TypeSchema.primitive "string" false),
          ("b", TypeSchema.primitive "string" false),
          ("c", TypeSchema.primitive "number" false)] false
        (by decide)
        (by simp +decide [resolveTypeNodeF, resolveMembersF, setKey,
          MemberSig.hasIgnore, MemberSig.type, MemberSig.optional, MemberSig.name,
          TypeNode.getText, TypeNode.getTextList, TypeNode.getTextMembers])
    simpa +decide [extractLiteralKeys, extractLiteralKeysList, pickKeys, pickKeysGo,
      getProp, setKey] using h
  · have h := (C7_utility_transforms 2 ⟨[], []⟩ [] false
        (TypeNode.typeLiteral
          [MemberSig.mk "a" false false (some TypeNode.stringKeyword),
            MemberSig.mk "b" false false (some TypeNode.stringKeyword),
            MemberSig.mk "c" false false (some TypeNode.numberKeyword)])
        (TypeNode.literalString "b")).2.2.2.2.2.1
        [("a", TypeSchema.primitive "string" false),
          ("b", TypeSchema.primitive "string" false),
          ("c", TypeSchema.primitive "number" false)] false
        (by decide)
        (by simp +decide [resolveTypeNodeF, resolveMembersF, setKey,
          MemberSig.hasIgnore, MemberSig.type, MemberSig.optional, MemberSig.name,
          TypeNode.getText, TypeNode.getTextList, TypeNode.getTextMembers])
    simpa +decide [TypeSchema.withOptional] using h
  · have h := (C7_utility_transforms 2 ⟨[], []⟩ [] false
        TypeNode.stringKeyword (TypeNode.literalString "b")).2.1
        (TypeSchema.primitive "string" false)
        (by decide)
        (by simp +decide [resolveTypeNodeF, TypeNode.getText, TypeNode.getTextList,
          specialTypes])
        (by intro props bo h2; exact TypeSchema.noConfusion h2)
    simpa using h

/-- Names of the saved blocks present in the store. -/
def blockNames (env : Env) : List String := env.blocks.map Prod.fst

/-- A found saved block is in the store. -/
theorem mem_blockNames_of_getSavedBlockContent (env : Env) (rt : String) (c : Json)
    (h : getSavedBlockContent env rt = some c) : rt ∈ blockNames env := by
  unfold getSavedBlockContent at h
  split at h
  · exact absurd h (by simp)
  · rcases Option.map_eq_some'.mp h with ⟨p, hp, _⟩
    have hmem := List.mem_of_find?_eq_some hp
    have hbeq : p.1 = rt := by
      have := List.find?_some hp
      simpa using this
    exact hbeq ▸ List.mem_map_of_mem Prod.fst hmem

/-- Membership in a one-element extension of a string list. -/
theorem contains_append_singleton (p : List String) (rt a : String) :
    ((p ++ [rt]).contains a) = (p.contains a || a == rt) := by
  by_cases h : a = rt <;> simp [h]

/-- Filtering with a pointwise-stronger predicate gives a shorter list. -/
theorem length_filter_mono {α : Type} (l : List α) (p q : α → Bool)
    (h : ∀ a, p a = true → q a = true) :
    (l.filter p).length ≤ (l.filter q).length := by
  induction l with
  | nil => simp
  | cons a as ih =>
      by_cases hp : p a = true
      · simp [hp, h a hp]; omega
      · simp only [Bool.not_eq_true] at hp
        by_cases hq : q a = true <;> simp [hp, hq] <;> omega

/-- Marking one more stored, unprocessed block strictly shrinks the count
of stored blocks not yet in progress. -/
theorem count_unprocessed_decreases (l : List String) (processed : List String) (rt : String)
    (hmem : rt ∈ l) (hnp : processed.contains rt = false) :
    (l.filter (fun n => !(processed ++ [rt]).contains n)).length <
      (l.filter (fun n => !processed.contains n)).length := by
  induction l with
  | nil => simp at hmem
  | cons a as ih =>
      by_cases ha : a = rt
      · subst ha
        have h1 : ((processed ++ [a]).contains a) = true := by simp
        simp only [List.filter_cons, h1, hnp, Bool.not_true, Bool.not_false,
          Bool.false_eq_true, if_false, if_true, List.length_cons]
        have hmono := length_filter_mono as (fun n => !(processed ++ [a]).contains n)
          (fun n => !processed.contains n) (by
            intro n hn
            have hn2 : (!(processed ++ [a]).contains n) = true := hn
            have h2 : ((processed ++ [a]).contains n) = false := by
              cases hcc : (processed ++ [a]).contains n
              · rfl
              · rw [hcc] at hn2; simp at hn2
            rw [contains_append_singleton] at h2
            have h3 := (Bool.or_eq_false_iff.mp h2).1
            simpa using h3)
        omega
      · have hmem2 : rt ∈ as := by
          rcases List.mem_cons.mp hmem with h | h
          · exact absurd h.symm ha
          · exact h
        have haeq : (a == rt) = false := by simp [ha]
        have hagree : ((processed ++ [rt]).contains a) = (processed.contains a) := by
          rw [contains_append_singleton, haeq, Bool.or_false]
        by_cases hpa : processed.contains a = true <;>
          have hih := ih hmem2 <;>
          simp only [List.filter_cons, hagree, hpa, Bool.not_true, Bool.not_false,
            Bool.false_eq_true, if_false, if_true, List.length_cons] <;>
          omega

/-- With fuel exceeding the number of stored blocks not yet in progress,
`validateJsonFileF` completes. -/
theorem validateJsonFileF_isSome (env : Env) (fuel : Nat) :
    ∀ (filePath : String) (json : Json) (processedBlocks : List String),
      ((blockNames env).filter (fun n => !processedBlocks.contains n)).length < fuel →
      (validateJsonFileF env fuel filePath json processedBlocks).isSome = true := by
  induction fuel using Nat.strong_induction_on with
  | _ fuel IH =>
    cases fuel with
    | zero => intro filePath json processedBlocks h; omega
    | succ m =>
      intro filePath json processedBlocks h
      rw [validateJsonFileF]
      have hPS : ∀ (sections : List SectionInJson) (processed : List String)
          (acc : ValidationResult),
          ((blockNames env).filter (fun n => !processed.contains n)).length ≤ m →
          (processSectionsF env m filePath sections processed acc).isSome = true := by
        intro sections
        induction sections with
        | nil => intro processed acc _; rw [processSectionsF]; rfl
        | cons sect rest ih =>
            intro processed acc hcount
            rw [processSectionsF]
            by_cases hsb : isSavedBlock sect.resolveType
            · simp only [hsb, if_true]
              by_cases hct : processed.contains sect.resolveType
              · simp only [hct, if_true]
                exact ih processed _ hcount
              · simp only [hct, Bool.false_eq_true, if_false]
                cases hgc : getSavedBlockContent env sect.resolveType with
                | none => simp only []; exact ih processed _ hcount
                | some blockContent =>
                    simp only []
                    have hmem := mem_blockNames_of_getSavedBlockContent env
                      sect.resolveType blockContent hgc
                    have hdec := count_unprocessed_decreases (blockNames env) processed
                      sect.resolveType hmem (by simpa using hct)
                    have hv := IH m (Nat.lt_succ_self m)
                      (".deco/blocks/" ++ blockNameToFileName env sect.resolveType)
                      blockContent (processed ++ [sect.resolveType]) (by omega)
                    rcases Option.isSome_iff_exists.mp hv with ⟨blockResult, hres⟩
                    rw [hres]
                    exact ih processed _ hcount
            · simp only [hsb, Bool.false_eq_true, if_false]
              cases env.getSectionContent sect.resolveType with
              | none => exact ih processed _ hcount
              | some sectionContent =>
                  simp only []
                  cases env.getExportDefaultFunctionProps sectionContent
                      ((resolveTypeToPath env sect.resolveType).head?) with
                  | none => exact ih processed _ hcount
                  | some expectedProps =>
                      simp only []
                      by_cases hlen : expectedProps.length = 0
                      · simp only [hlen, if_true]
                        exact ih processed _ hcount
                      · simp only [hlen, Bool.false_eq_true, if_false]
                        split <;> exact ih processed _ hcount
      exact hPS (findSectionsInJson json []) processedBlocks ⟨[], [], []⟩ (by omega)

/-- C8: saved-block validation detects circular references instead of
recursing forever.  (i) For every environment, document and in-progress
set, validation completes with fuel one more than the number of stored
blocks not yet in progress (the recursion is bounded by the block store).
(ii) A saved block whose content references itself yields exactly one
error, whose single message mentions the circular reference.  (iii) The
in-progress set is copied before each recursive descent, so two sibling
references to the same (non-circular) block in one document produce no
error at all — no false-positive cycle detection. -/
theorem C8_circular_reference_detection :
    (∀ (env : Env) (filePath : String) (json : Json) (processedBlocks : List String),
      (validateJsonFileF env
          (((blockNames env).filter (fun n => !processedBlocks.contains n)).length + 1)
          filePath json processedBlocks).isSome = true) ∧
    (validateJsonFileF
        ⟨[("B", Json.obj [("__resolveType", Json.str "B")])], id, fun _ => none,
          fun _ _ => none, fun _ _ _ _ => []⟩
        2 "f.json" (Json.obj [("__resolveType", Json.str "B")]) [] =
      some ⟨[⟨"f.json", " -> ", "B", ["Circular reference detected: B"], none⟩], [],
        ["B"]⟩) ∧
    (validateJsonFileF
        ⟨[("B", Json.obj [("__resolveType", Json.str "resolved")])], id, fun _ => none,
          fun _ _ => none, fun _ _ _ _ => []⟩
        2 "f.json"
        (Json.arr [Json.obj [("__resolveType", Json.str "B")],
          Json.obj [("__resolveType", Json.str "B")]]) [] =
      some ⟨[], [], ["B"]⟩) := by
  refine ⟨?_, ?_, ?_⟩
  · intro env filePath json processedBlocks
    exact validateJsonFileF_isSome env _ filePath json processedBlocks (Nat.lt_succ_self _)
  · simp +decide [validateJsonFileF, processSectionsF, findSectionsInJson, sectionsInFields,
      sectionsInArray, getField, shouldIgnore, isSavedBlock, isAppSection, jsStartsWith,
      jsEndsWith, jsIncludes, containsSub, getSavedBlockContent, addToSet,
      blockNameToFileName]
  · simp +decide [validateJsonFileF, processSectionsF, findSectionsInJson, sectionsInFields,
      sectionsInArray, getField, shouldIgnore, isSavedBlock, isAppSection, jsStartsWith,
      jsEndsWith, jsIncludes, containsSub, getSavedBlockContent, addToSet,
      blockNameToFileName]

end VB
